import Mathlib

/-!
# cmdbox: the interaction state machine of `cmdbox.cpp`

A shallow embedding of `ClipboardManager` (POSIX build, the `#else` branches of the
platform switches) together with a model of the part of `std::filesystem` it calls.

* A `char` returned by `getch()` is an `Int` (its value after integral promotion).
* A `std::string` is a list of bytes, a `fs::path` an absolute, normalised list of
  components below `/`.
* Storage is a finite table from paths to nodes; the order of the table is the
  (unspecified) order in which `fs::directory_iterator` yields entries.
* Every `getch()` call site is a program point (`Pc`); `step` runs the code from one
  call site to the next one.  An exception leaving `run()` (nothing in the source
  catches one) ends the process: `Config.crashed`.
-/

namespace CmdBox

/-! ## Strings, paths and storage -/

/-- A `std::string`: its bytes. -/
abbrev Str := List Nat

/-- An absolute, normalised `fs::path`: its components below the filesystem root. -/
abbrev Path := List Str

/-- What a path names in storage. -/
inductive Node where
  | file (content : Str)
  | dir
  deriving DecidableEq, Repr

/-- Storage: a table from paths to nodes, in directory-iteration order. -/
abbrev FS := List (Path × Node)

/-- The node a path names, if any. -/
def lookup (fs : FS) (p : Path) : Option Node :=
  (fs.find? (fun e => decide (e.1 = p))).map Prod.snd

/-- `fs::exists(p)`. -/
def fs_exists (fs : FS) (p : Path) : Bool :=
  (lookup fs p).isSome

/-- `fs::is_directory(p)`. -/
def is_directory (fs : FS) (p : Path) : Bool :=
  decide (lookup fs p = some Node.dir)

/-- `p.parent_path()`; the parent of `/` is `/`. -/
def parent_path (p : Path) : Path :=
  p.dropLast

/-- `p.filename()`: the last component. -/
def filename (p : Path) : Str :=
  p.getLastD []

/-- Whether entry path `q` is a direct child of directory `p`. -/
def isChildOf (p q : Path) : Bool :=
  decide (q ≠ [] ∧ q.dropLast = p)

/-- `fs::directory_iterator(p)`: the paths of the children of `p`, in storage order;
`none` when the constructor throws (`p` is not an existing directory). -/
def directory_iterator (fs : FS) (p : Path) : Option (List Path) :=
  if is_directory fs p then some ((fs.map Prod.fst).filter (isChildOf p)) else none

/-- `std::sort` on a `std::vector<fs::path>`: `operator<` on paths compares component
by component, each component as a byte string. -/
def sort (ps : List Path) : List Path :=
  ps.insertionSort (fun a b => a ≤ b)

/-- `fs::remove_all(p)`: removes `p` and everything below it. -/
def remove_all (fs : FS) (p : Path) : FS :=
  fs.filter (fun e => !(p.isPrefixOf e.1))

/-- Re-keys the subtree at `old` to `new`; the other entries are kept. -/
def relocate (fs : FS) (old new : Path) : FS :=
  fs.map (fun e => if old.isPrefixOf e.1 then (new ++ e.1.drop old.length, e.2) else e)

/-- Whether directory `p` has no child. -/
def isEmptyDir (fs : FS) (p : Path) : Bool :=
  (fs.map Prod.fst).all (fun q => !(isChildOf p q))

/-- `fs::rename(old, new)` with the semantics of POSIX `rename(2)`; `none` when it
throws `filesystem_error`. -/
def rename (fs : FS) (old new : Path) : Option FS :=
  match lookup fs old with
  | none => none                                          -- ENOENT
  | some k =>
    if old = new then some fs
    else if old.isPrefixOf new then none                  -- EINVAL (ENOTDIR for a file)
    else if !(is_directory fs (parent_path new)) then none -- ENOENT, ENOTDIR
    else
      match k, lookup fs new with
      | _, none => some (relocate fs old new)
      | Node.file _, some (Node.file _) => some (relocate (remove_all fs new) old new)
      | Node.file _, some Node.dir => none                -- EISDIR
      | Node.dir, some (Node.file _) => none              -- ENOTDIR
      | Node.dir, some Node.dir =>
        if isEmptyDir fs new then some (relocate (remove_all fs new) old new)
        else none                                         -- ENOTEMPTY

/-- The byte `/`. -/
def slash : Nat := 47

/-- The component `.`. -/
def dot : Str := [46]

/-- The component `..`. -/
def dotdot : Str := [46, 46]

/-- `NAME_MAX` of Linux `<limits.h>`: the greatest length of a file name, in bytes. -/
def NAME_MAX : Nat := 255

/-- `PATH_MAX` of Linux `<limits.h>`: the greatest length of a path string handed to
the operating system, its terminating zero byte included. -/
def PATH_MAX : Nat := 4096

/-- The length of the string of an absolute path: each component after one `/`. -/
def pathStringLength (p : Path) : Nat :=
  (p.map (fun c => c.length + 1)).sum

/-- The length of the string `current_path / name` handed to the operating system
for a typed `name`: `name` itself when it is absolute, else the current path, one
`/` and `name`. -/
def rawLength (current_path : Path) (name : Str) : Nat :=
  if name.head? = some slash then name.length
  else pathStringLength current_path + 1 + name.length

/-- Path resolution by the operating system: walks the components from `cur`; every
directory a component is looked up in must exist and no component may be longer than
`NAME_MAX`.  `none`: ENOENT, ENOTDIR or ENAMETOOLONG. -/
def resolve (fs : FS) : Path → List Str → Option Path
  | cur, [] => some cur
  | cur, c :: cs =>
    if !(is_directory fs cur) then none                   -- ENOENT, ENOTDIR
    else if c.length > NAME_MAX then none                 -- ENAMETOOLONG
    else if c = [] ∨ c = dot then resolve fs cur cs
    else if c = dotdot then resolve fs (parent_path cur) cs
    else resolve fs (cur ++ [c]) cs

/-- The directory a path string typed by the user starts from: `current_path / name`
is `name` itself when `name` is absolute. -/
def startOf (current_path : Path) (name : Str) : Path :=
  if name.head? = some slash then [] else current_path

/-- Drops trailing empty components (trailing slashes). -/
def dropTrailingEmpty (cs : List Str) : List Str :=
  (cs.reverse.dropWhile (fun c => decide (c = []))).reverse

/-- `fs::create_directory(t)` on a resolved path: `mkdir(2)`; a name longer than
`NAME_MAX` or a path string that does not fit `PATH_MAX` is refused, an already
existing directory is not an error; `none` when it throws. -/
def mkdir (fs : FS) (t : Path) : Option FS :=
  if (filename t).length > NAME_MAX ∨ pathStringLength t ≥ PATH_MAX then
    none                                                  -- ENAMETOOLONG
  else
    match lookup fs t with
    | some Node.dir => some fs
    | some (Node.file _) => none                          -- EEXIST, not a directory
    | none =>
      if is_directory fs (parent_path t) then some (fs ++ [(t, Node.dir)])
      else none                                           -- ENOENT, ENOTDIR

/-- `fs::create_directory(current_path / name)` for a typed `name`; `none` when it
throws. -/
def create_directory (fs : FS) (current_path : Path) (name : Str) : Option FS :=
  if rawLength current_path name ≥ PATH_MAX then none     -- ENAMETOOLONG
  else
    match resolve fs (startOf current_path name)
        (dropTrailingEmpty (name.splitOn slash)) with
    | none => none
    | some t => mkdir fs t

/-- `std::ofstream file(current_path / name)`: the file the stream is open on, `none`
when the stream failed to open. -/
def ofstream_open (fs : FS) (current_path : Path) (name : Str) : Option Path :=
  if rawLength current_path name ≥ PATH_MAX then none     -- ENAMETOOLONG
  else
    match resolve fs (startOf current_path name) (name.splitOn slash) with
    | none => none                                        -- ENOENT, ENOTDIR, ENAMETOOLONG
    | some t =>
      match lookup fs t with
      | some Node.dir => none                             -- EISDIR
      | _ => some t

/-- `std::ofstream file(current_path / name); file << content; file.close();`:
creates or truncates the file; a stream that failed to open writes nothing and
reports nothing. -/
def ofstream_write (fs : FS) (current_path : Path) (name content : Str) : FS :=
  match ofstream_open fs current_path name with
  | none => fs
  | some t => fs.filter (fun e => decide (e.1 ≠ t)) ++ [(t, Node.file content)]

/-- `readFileContents`: the whole content of a file; a stream that cannot be read
yields the empty string. -/
def readFileContents (fs : FS) (p : Path) : Str :=
  match lookup fs p with
  | some (Node.file c) => c
  | _ => []

/-! ## The session state -/

/-- `enum class Mode`. -/
inductive Mode where
  | NORMAL
  | CREATE_FOLDER
  | CREATE_COMMAND
  | DELETE
  | MOVE
  | MOVE_NAVIGATE
  | QUIT
  deriving DecidableEq, Repr

/-- The data members of `ClipboardManager`, and the two external collaborators the
code acts on: storage and the clipboard sink (texts written, most recent first). -/
structure State where
  current_path : Path
  current_items : List Path
  current_mode : Mode
  item_to_move : Path
  moving_item_name : Str
  fs : FS
  clipboard : List Str
  deriving DecidableEq, Repr

/-- `KEY_ESCAPE`. -/
def KEY_ESCAPE : Int := 27

/-- `KEY_BACKSPACE` (POSIX build). -/
def KEY_BACKSPACE : Int := 127

/-- The character `\n`. -/
def KEY_ENTER : Int := 10

/-- `root_dir = "commands"`. -/
def root_dir : Str := [99, 111, 109, 109, 97, 110, 100, 115]

/-- The suffix `".cmd"`. -/
def cmd_suffix : Str := [46, 99, 109, 100]

/-- `fs::absolute(root_dir)`, for a process whose working directory is `cwd`. -/
def absolute_root (cwd : Path) : Path :=
  cwd ++ [root_dir]

/-- `isprint(c)` in the C locale. -/
def isprint (c : Int) : Bool :=
  decide (32 ≤ c ∧ c ≤ 126)

/-- `updateCurrentItems`: directories sorted, then the other entries sorted; `none`
when `fs::directory_iterator` throws. -/
def updateCurrentItems (s : State) : Option State :=
  match directory_iterator s.fs s.current_path with
  | none => none
  | some entries =>
    let dirs := entries.filter (fun e => is_directory s.fs e)
    let files := entries.filter (fun e => !(is_directory s.fs e))
    some { s with current_items := sort dirs ++ sort files }

/-- `copyToClipboard(text)`. -/
def copyToClipboard (s : State) (text : Str) : State :=
  { s with clipboard := text :: s.clipboard }

/-- The `getch()` call sites, each with the local variables live at it. -/
inductive Pc where
  /-- `run`, line 499. -/
  | run
  /-- `run`, line 508 (`confirm`). -/
  | runConfirm
  /-- `createFolder`, line 331. -/
  | createFolder (name : Str)
  /-- `createCommand`, line 364. -/
  | createCommand (name content : Str) (entering_name : Bool)
  /-- `enterDeleteMode`, line 399. -/
  | enterDeleteMode
  /-- `enterMoveMode`, line 418. -/
  | enterMoveMode
  /-- `enterMoveMode`, line 441, inside the navigation loop. -/
  | moveNavigate (source_path : Path)
  deriving DecidableEq, Repr

/-- A configuration of the process. -/
inductive Config where
  /-- Blocked in `getch()` at a call site. -/
  | running (pc : Pc) (s : State)
  /-- The loop of `run` was left by `break`: normal termination. -/
  | exited (s : State)
  /-- An exception left `run`: `std::terminate`. -/
  | crashed
  deriving DecidableEq, Repr

/-- `updateCurrentItems();` inside a loop, then the next `getch()` of that loop. -/
def refreshThen (pc : Pc) (s : State) : Config :=
  match updateCurrentItems s with
  | none => Config.crashed
  | some s1 => Config.running pc s1

/-- The tail of the called functions: `updateCurrentItems(); ...;
current_mode = Mode::NORMAL;` and the return into the loop of `run`. -/
def refreshReturn (s : State) : Config :=
  match updateCurrentItems s with
  | none => Config.crashed
  | some s1 => Config.running Pc.run { s1 with current_mode := Mode.NORMAL }

/-- `current_items[idx]` for an index that passed the bounds test of its call site. -/
def item_at (s : State) (idx : Int) : Path :=
  s.current_items.getD idx.toNat []

/-! ## The functions of `ClipboardManager` -/

/-- `createFolder`, from the call to its first `getch()`. -/
def createFolder (s : State) : Config :=
  Config.running (Pc.createFolder []) { s with current_mode := Mode.CREATE_FOLDER }

/-- `createFolder`, lines 331-347: one iteration of its loop on `input`. -/
def createFolder_key (name : Str) (s : State) (input : Int) : Config :=
  if input = KEY_ESCAPE then
    Config.running Pc.run { s with current_mode := Mode.NORMAL }
  else if input = KEY_ENTER ∧ name ≠ [] then
    match create_directory s.fs s.current_path name with
    | none => Config.crashed
    | some fs1 => refreshReturn { s with fs := fs1 }
  else if input = KEY_BACKSPACE ∧ name ≠ [] then
    Config.running (Pc.createFolder name.dropLast) s
  else if isprint input then
    Config.running (Pc.createFolder (name ++ [input.toNat])) s
  else
    Config.running (Pc.createFolder name) s

/-- `createCommand`, from the call to its first `getch()`. -/
def createCommand (s : State) : Config :=
  Config.running (Pc.createCommand [] [] true) { s with current_mode := Mode.CREATE_COMMAND }

/-- `createCommand`, lines 364-392: one iteration of its loop on `input`. -/
def createCommand_key (name content : Str) (entering_name : Bool) (s : State)
    (input : Int) : Config :=
  if input = KEY_ESCAPE then
    Config.running Pc.run { s with current_mode := Mode.NORMAL }
  else if input = KEY_ENTER then
    if entering_name = true ∧ name ≠ [] then
      Config.running (Pc.createCommand name content false) s
    else if entering_name = false ∧ content ≠ [] then
      refreshReturn
        { s with fs := ofstream_write s.fs s.current_path (name ++ cmd_suffix) content }
    else
      Config.running (Pc.createCommand name content entering_name) s
  else if input = KEY_BACKSPACE then
    if entering_name = true ∧ name ≠ [] then
      Config.running (Pc.createCommand name.dropLast content entering_name) s
    else if entering_name = false ∧ content ≠ [] then
      Config.running (Pc.createCommand name content.dropLast entering_name) s
    else
      Config.running (Pc.createCommand name content entering_name) s
  else if isprint input then
    if entering_name = true then
      Config.running (Pc.createCommand (name ++ [input.toNat]) content entering_name) s
    else
      Config.running (Pc.createCommand name (content ++ [input.toNat]) entering_name) s
  else
    Config.running (Pc.createCommand name content entering_name) s

/-- `enterDeleteMode`, from the call to its first `getch()`. -/
def enterDeleteMode (s : State) : Config :=
  Config.running Pc.enterDeleteMode { s with current_mode := Mode.DELETE }

/-- `enterDeleteMode`, lines 399-410: one iteration of its loop on `key`. -/
def enterDeleteMode_key (s : State) (key : Int) : Config :=
  if key = KEY_ESCAPE then
    Config.running Pc.run { s with current_mode := Mode.NORMAL }
  else
    -- idx = key - 'a'
    if 0 ≤ key - 97 ∧ key - 97 < (s.current_items.length : Int) then
      refreshReturn { s with fs := remove_all s.fs (item_at s (key - 97)) }
    else
      Config.running Pc.enterDeleteMode s

/-- `enterMoveMode`, from the call to its first `getch()`. -/
def enterMoveMode (s : State) : Config :=
  Config.running Pc.enterMoveMode { s with current_mode := Mode.MOVE }

/-- `enterMoveMode`, lines 418-435: the selection of the item to move. -/
def enterMoveMode_key (s : State) (key : Int) : Config :=
  if key = KEY_ESCAPE then
    Config.running Pc.run { s with current_mode := Mode.NORMAL }
  else
    -- idx = key - 'a'
    if key - 97 < 0 ∨ key - 97 ≥ (s.current_items.length : Int) then
      Config.running Pc.run { s with current_mode := Mode.NORMAL }
    else
      Config.running (Pc.moveNavigate s.current_path)
        { s with item_to_move := item_at s (key - 97),
                 moving_item_name := filename (item_at s (key - 97)),
                 current_mode := Mode.MOVE_NAVIGATE }

/-- `enterMoveMode`, lines 466-469: after the navigation loop. -/
def enterMoveMode_finish (source_path : Path) (s : State) : Config :=
  refreshReturn { s with current_path := source_path }

/-- `enterMoveMode`, lines 446-451: the body of the ENTER branch of the navigation
loop, followed by the code after the loop. -/
def moveNavigate_enter (source_path : Path) (s : State) : Config :=
  if s.current_path ≠ source_path then
    match rename s.fs s.item_to_move (s.current_path ++ [filename s.item_to_move]) with
    | none => Config.crashed
    | some fs1 => enterMoveMode_finish source_path { s with fs := fs1 }
  else
    enterMoveMode_finish source_path s

/-- `enterMoveMode`, lines 458-462: the body of the selection branch of the navigation
loop (`idx = key - 'a'`). -/
def moveNavigate_select (source_path : Path) (s : State) (key : Int) : Config :=
  if is_directory s.fs (item_at s (key - 97)) then
    refreshThen (Pc.moveNavigate source_path) { s with current_path := item_at s (key - 97) }
  else
    Config.running (Pc.moveNavigate source_path) s

/-- `enterMoveMode`, lines 441-469: one iteration of the navigation loop on `key`. -/
def moveNavigate_key (cwd : Path) (source_path : Path) (s : State) (key : Int) : Config :=
  if key = KEY_ESCAPE then
    enterMoveMode_finish source_path s
  else if key = KEY_ENTER then
    moveNavigate_enter source_path s
  else if key = KEY_BACKSPACE ∧ s.current_path ≠ absolute_root cwd then
    refreshThen (Pc.moveNavigate source_path)
      { s with current_path := parent_path s.current_path }
  else if key ≥ 97 ∧ key < 97 + (s.current_items.length : Int) then
    moveNavigate_select source_path s key
  else
    Config.running (Pc.moveNavigate source_path) s

/-- `run`, lines 508-513: the second `getch()` after ESC in `Mode::QUIT`. -/
def run_confirm (s : State) (confirm : Int) : Config :=
  if confirm = 89 ∨ confirm = 121 then Config.exited s
  else Config.running Pc.run { s with current_mode := Mode.NORMAL }

/-- `run`, lines 502-520: the body of `if (input == KEY_ESCAPE)`. -/
def run_escape (cwd : Path) (s : State) : Config :=
  if s.current_mode ≠ Mode.NORMAL ∧ s.current_mode ≠ Mode.QUIT then
    Config.running Pc.run { s with current_mode := Mode.NORMAL }
  else if s.current_mode = Mode.QUIT then
    Config.running Pc.runConfirm s
  else if s.current_path ≠ absolute_root cwd then
    refreshThen Pc.run { s with current_path := parent_path s.current_path }
  else
    Config.running Pc.run { s with current_mode := Mode.QUIT }

/-- `run`, lines 542-556: the body of the selection branch (`idx = input - 'a'`). -/
def run_select (s : State) (input : Int) : Config :=
  if s.current_mode = Mode.DELETE then
    refreshReturn { s with fs := remove_all s.fs (item_at s (input - 97)) }
  else if s.current_mode = Mode.NORMAL then
    if is_directory s.fs (item_at s (input - 97)) then
      refreshThen Pc.run { s with current_path := item_at s (input - 97) }
    else
      Config.running Pc.run
        (copyToClipboard s (readFileContents s.fs (item_at s (input - 97))))
  else
    Config.running Pc.run s

/-- `run`, lines 499-557: one iteration of the main loop on `input`. -/
def run_key (cwd : Path) (s : State) (input : Int) : Config :=
  if input = KEY_ESCAPE then
    run_escape cwd s
  else if input = 78 ∧ s.current_mode = Mode.QUIT then
    Config.running Pc.run { s with current_mode := Mode.NORMAL }
  else if input = 89 ∧ s.current_mode = Mode.QUIT then
    Config.exited s
  else if input = 78 ∧ s.current_mode = Mode.NORMAL then
    createFolder s
  else if input = 67 ∧ s.current_mode = Mode.NORMAL then
    createCommand s
  else if input = 68 ∧ s.current_mode = Mode.NORMAL then
    enterDeleteMode s
  else if input = 77 ∧ s.current_mode = Mode.NORMAL then
    enterMoveMode s
  else if input ≥ 97 ∧ input < 97 + (s.current_items.length : Int) then
    run_select s input
  else
    Config.running Pc.run s

/-- The constructor `ClipboardManager()` followed by the call of `run()` up to its
first `getch()`, for a process started in `cwd` on storage `fs`. -/
def start (cwd : Path) (fs : FS) : Config :=
  let s0 : State :=
    { current_path := absolute_root cwd, current_items := [], current_mode := Mode.NORMAL,
      item_to_move := [], moving_item_name := [], fs := fs, clipboard := [] }
  if fs_exists fs s0.current_path then refreshThen Pc.run s0
  else
    match mkdir fs s0.current_path with
    | none => Config.crashed
    | some fs1 => refreshThen Pc.run { s0 with fs := fs1 }

/-- One keystroke: the code between two consecutive `getch()` calls. -/
def step (cwd : Path) (c : Config) (key : Int) : Config :=
  match c with
  | Config.running Pc.run s => run_key cwd s key
  | Config.running Pc.runConfirm s => run_confirm s key
  | Config.running (Pc.createFolder name) s => createFolder_key name s key
  | Config.running (Pc.createCommand name content e) s => createCommand_key name content e s key
  | Config.running Pc.enterDeleteMode s => enterDeleteMode_key s key
  | Config.running Pc.enterMoveMode s => enterMoveMode_key s key
  | Config.running (Pc.moveNavigate src) s => moveNavigate_key cwd src s key
  | Config.exited s => Config.exited s
  | Config.crashed => Config.crashed

/-- The process fed a finite sequence of keystrokes. -/
def runKeys (cwd : Path) (c : Config) (keys : List Int) : Config :=
  keys.foldl (step cwd) c

/-- The configurations the process can be in after some keystrokes, from a start in
working directory `cwd`. -/
inductive Reachable (cwd : Path) : Config → Prop where
  | start (fs : FS) : Reachable cwd (start cwd fs)
  | step (c : Config) (key : Int) : Reachable cwd c → Reachable cwd (step cwd c key)

/-! ## Specification-level definitions -/

/-- The order `updateCurrentItems` puts a directory listing in: the directories
sorted, then the other entries sorted. -/
def orderedEntries (fs : FS) (entries : List Path) : List Path :=
  sort (entries.filter (fun e => is_directory fs e)) ++
    sort (entries.filter (fun e => !(is_directory fs e)))

/-- What `updateCurrentItems` stores in `current_items` for directory `p`; `none` when
the directory iterator throws. -/
def listing (fs : FS) (p : Path) : Option (List Path) :=
  (directory_iterator fs p).map (orderedEntries fs)

/-- The visible entries are the ordered listing of the current directory in the
current storage. -/
def Refreshed (s : State) : Prop :=
  listing s.fs s.current_path = some s.current_items

/-- The invariant of the main loop: the listing is fresh, and the current directory
and the move source lie at or below the root. -/
def Inv (cwd : Path) : Config → Prop
  | Config.running pc s =>
    Refreshed s ∧ absolute_root cwd <+: s.current_path ∧
      ∀ src, pc = Pc.moveNavigate src → absolute_root cwd <+: src
  | _ => True

/-- The current directory of a running configuration. -/
def current_path_of : Config → Option Path
  | Config.running _ s => some s.current_path
  | _ => none

/-- The visible entries of a running configuration. -/
def current_items_of : Config → Option (List Path)
  | Config.running _ s => some s.current_items
  | _ => none

/-- The mode of a running configuration. -/
def current_mode_of : Config → Option Mode
  | Config.running _ s => some s.current_mode
  | _ => none

/-- The call site a running configuration is blocked at. -/
def pc_of : Config → Option Pc
  | Config.running pc _ => some pc
  | _ => none

/-- The storage of a configuration that has not crashed. -/
def fs_of : Config → Option FS
  | Config.running _ s => some s.fs
  | Config.exited s => some s.fs
  | Config.crashed => none

/-- Storage whose root directory `/commands` holds the `n` entries named by the single
bytes `65, 66, ...`, all of kind `node`. -/
def storageWith (n : Nat) (node : Node) : FS :=
  ([], Node.dir) :: ([root_dir], Node.dir) ::
    (List.range n).map (fun i => ([root_dir, [65 + i]], node))

/-- Whether the loop of `run` was left normally. -/
def has_exited : Config → Bool
  | Config.exited _ => true
  | _ => false

/-- The state of the main loop at the root `/commands` holding one folder `A`. -/
def stateOneFolder : State :=
  { current_path := [root_dir], current_items := [[root_dir, [65]]],
    current_mode := Mode.NORMAL, item_to_move := [], moving_item_name := [],
    fs := storageWith 1 Node.dir, clipboard := [] }

/-- The key is read, in the main loop in Browse or in the navigation loop of
`enterMoveMode`, as the selection of a visible entry that is a folder. -/
def isDescentKey (cwd : Path) (pc : Pc) (s : State) (key : Int) : Prop :=
  key ≥ 97 ∧ key < 97 + (s.current_items.length : Int) ∧
    is_directory s.fs (item_at s (key - 97)) = true ∧
    match pc with
    | Pc.run => s.current_mode = Mode.NORMAL
    | Pc.moveNavigate _ => ¬ (key = KEY_BACKSPACE ∧ s.current_path ≠ absolute_root cwd)
    | _ => False

/-- Every key of the sequence, read in turn from configuration `c`, descends into a
folder. -/
def Descents (cwd : Path) : Config → List Int → Prop
  | _, [] => True
  | Config.running pc s, k :: ks =>
    isDescentKey cwd pc s k ∧ Descents cwd (step cwd (Config.running pc s) k) ks
  | _, _ :: _ => False

/-- The keystrokes that type the bytes of a string. -/
def toKeys (xs : Str) : List Int :=
  xs.map (fun x => (x : Int))

/-- Every byte of the string is a printable character. -/
def printable (xs : Str) : Prop :=
  ∀ x ∈ xs, 32 ≤ x ∧ x ≤ 126

/-- The state of the navigation loop of `enterMoveMode` on `storageWith 1 Node.dir`
after `M`, `a`, `a`: the folder `A` is to be moved and is the current directory. -/
def stateMoveAIntoItself : State :=
  { current_path := [root_dir, [65]], current_items := [],
    current_mode := Mode.MOVE_NAVIGATE, item_to_move := [root_dir, [65]],
    moving_item_name := [65], fs := storageWith 1 Node.dir, clipboard := [] }

/-! ## Lemmas -/

theorem sort_perm (l : List Path) : (sort l).Perm l :=
  List.perm_insertionSort _ l

theorem sort_sorted (l : List Path) : (sort l).Sorted (fun a b => a ≤ b) :=
  List.sorted_insertionSort _ l

theorem sort_filter (l : List Path) (p : Path → Bool) :
    sort (l.filter p) = (sort l).filter p := by
  apply List.eq_of_perm_of_sorted (r := fun a b : Path => a ≤ b)
  · exact (sort_perm _).trans ((sort_perm l).filter p).symm
  · exact sort_sorted _
  · exact (sort_sorted l).filter p

theorem orderedEntries_perm (fs : FS) (es : List Path) : (orderedEntries fs es).Perm es := by
  unfold orderedEntries
  exact ((sort_perm _).append (sort_perm _)).trans (List.filter_append_perm _ es)

theorem updateCurrentItems_eq (s : State) :
    updateCurrentItems s =
      (listing s.fs s.current_path).map (fun l => { s with current_items := l }) := by
  unfold updateCurrentItems listing orderedEntries
  cases directory_iterator s.fs s.current_path <;> rfl

theorem isChildOf_iff (p q : Path) : isChildOf p q = true ↔ ∃ x, q = p ++ [x] := by
  unfold isChildOf
  simp only [ne_eq, decide_eq_true_eq]
  constructor
  · rintro ⟨hne, hd⟩
    exact ⟨q.getLast hne, by rw [← hd, List.dropLast_append_getLast]⟩
  · rintro ⟨x, rfl⟩
    simp

theorem listing_some {fs : FS} {p : Path} {l : List Path} (h : listing fs p = some l) :
    is_directory fs p = true ∧
      l = orderedEntries fs ((fs.map Prod.fst).filter (isChildOf p)) := by
  unfold listing directory_iterator at h
  by_cases hd : is_directory fs p = true
  · simp [hd] at h
    exact ⟨hd, h.symm⟩
  · simp [hd] at h

theorem listing_of_isDir {fs : FS} {p : Path} (h : is_directory fs p = true) :
    listing fs p = some (orderedEntries fs ((fs.map Prod.fst).filter (isChildOf p))) := by
  simp [listing, directory_iterator, h]

theorem mem_listing {fs : FS} {p q : Path} {l : List Path} (h : listing fs p = some l)
    (hq : q ∈ l) : (∃ x, q = p ++ [x]) ∧ q ∈ fs.map Prod.fst := by
  obtain ⟨_, rfl⟩ := listing_some h
  have := (orderedEntries_perm fs _).subset hq
  rw [List.mem_filter] at this
  exact ⟨(isChildOf_iff p q).1 this.2, this.1⟩

theorem item_at_mem (s : State) (idx : Int) (h0 : 0 ≤ idx)
    (h1 : idx < (s.current_items.length : Int)) : item_at s idx ∈ s.current_items := by
  unfold item_at
  have hlt : idx.toNat < s.current_items.length := by omega
  rw [List.getD_eq_getElem _ _ hlt]
  exact List.getElem_mem _

theorem item_at_child {s : State} (hr : Refreshed s) (idx : Int) (h0 : 0 ≤ idx)
    (h1 : idx < (s.current_items.length : Int)) :
    ∃ x, item_at s idx = s.current_path ++ [x] :=
  (mem_listing hr (item_at_mem s idx h0 h1)).1

theorem refreshThen_eq (pc : Pc) (s : State) :
    refreshThen pc s =
      match listing s.fs s.current_path with
      | none => Config.crashed
      | some l => Config.running pc { s with current_items := l } := by
  unfold refreshThen
  rw [updateCurrentItems_eq]
  cases listing s.fs s.current_path <;> rfl

theorem refreshReturn_eq (s : State) :
    refreshReturn s =
      match listing s.fs s.current_path with
      | none => Config.crashed
      | some l => Config.running Pc.run { s with current_items := l, current_mode := Mode.NORMAL } := by
  unfold refreshReturn
  rw [updateCurrentItems_eq]
  cases listing s.fs s.current_path <;> rfl

theorem inv_refreshThen (cwd : Path) (pc : Pc) (s : State)
    (hroot : absolute_root cwd <+: s.current_path)
    (hsrc : ∀ src, pc = Pc.moveNavigate src → absolute_root cwd <+: src) :
    Inv cwd (refreshThen pc s) := by
  rw [refreshThen_eq]
  cases h : listing s.fs s.current_path with
  | none => trivial
  | some l => exact ⟨h, hroot, hsrc⟩

theorem inv_refreshReturn (cwd : Path) (s : State)
    (hroot : absolute_root cwd <+: s.current_path) : Inv cwd (refreshReturn s) := by
  rw [refreshReturn_eq]
  cases h : listing s.fs s.current_path with
  | none => trivial
  | some l => exact ⟨h, hroot, fun src hs => by cases hs⟩

theorem root_le_parent {r p : Path} (h : r <+: p) (hne : p ≠ r) : r <+: parent_path p := by
  obtain ⟨t, rfl⟩ := h
  unfold parent_path
  rcases List.eq_nil_or_concat t with rfl | ⟨t', x, rfl⟩
  · simp at hne
  · rw [List.concat_eq_append, ← List.append_assoc, List.dropLast_concat]
    exact List.prefix_append _ _

theorem inv_same (cwd : Path) (pc : Pc) (s t : State) (hr : Refreshed s)
    (hroot : absolute_root cwd <+: s.current_path)
    (hfs : t.fs = s.fs) (hp : t.current_path = s.current_path)
    (hi : t.current_items = s.current_items)
    (hsrc : ∀ src, pc = Pc.moveNavigate src → absolute_root cwd <+: src) :
    Inv cwd (Config.running pc t) := by
  refine ⟨?_, ?_, hsrc⟩
  · unfold Refreshed at hr ⊢
    rw [hfs, hp, hi]
    exact hr
  · rw [hp]
    exact hroot

theorem inv_step (cwd : Path) (c : Config) (key : Int) (h : Inv cwd c) :
    Inv cwd (step cwd c key) := by
  cases c with
  | crashed => trivial
  | exited s => trivial
  | running pc s =>
    obtain ⟨hr, hroot, hsrc⟩ := h
    have hno : ∀ src, Pc.run = Pc.moveNavigate src → absolute_root cwd <+: src :=
      fun src hs => by cases hs
    have hchild : ∀ idx : Int, 0 ≤ idx → idx < (s.current_items.length : Int) →
        absolute_root cwd <+: item_at s idx := by
      intro idx h0 h1
      obtain ⟨x, hx⟩ := item_at_child hr idx h0 h1
      rw [hx]
      exact hroot.trans (List.prefix_append _ _)
    cases pc with
    | run =>
      simp only [step]
      unfold run_key
      repeat' split
      · unfold run_escape
        repeat' split
        all_goals
          first
          | exact inv_same cwd _ s _ hr hroot rfl rfl rfl (fun src hs => Pc.noConfusion hs)
          | exact inv_refreshThen cwd _ _ (root_le_parent hroot ‹_›) hno
      · exact inv_same cwd _ s _ hr hroot rfl rfl rfl hno
      · exact True.intro
      · exact inv_same cwd _ s _ hr hroot rfl rfl rfl (fun src hs => Pc.noConfusion hs)
      · exact inv_same cwd _ s _ hr hroot rfl rfl rfl (fun src hs => Pc.noConfusion hs)
      · exact inv_same cwd _ s _ hr hroot rfl rfl rfl (fun src hs => Pc.noConfusion hs)
      · exact inv_same cwd _ s _ hr hroot rfl rfl rfl (fun src hs => Pc.noConfusion hs)
      · unfold run_select
        repeat' split
        all_goals
          first
          | exact inv_same cwd _ s _ hr hroot rfl rfl rfl (fun src hs => Pc.noConfusion hs)
          | exact inv_refreshReturn cwd _ hroot
          | exact inv_refreshThen cwd _ _ (hchild _ (by omega) (by omega)) hno
      · exact inv_same cwd _ s _ hr hroot rfl rfl rfl hno
    | runConfirm =>
      simp only [step]
      unfold run_confirm
      split
      · exact True.intro
      · exact inv_same cwd _ s _ hr hroot rfl rfl rfl hno
    | createFolder name =>
      simp only [step]
      unfold createFolder_key
      repeat' split
      all_goals
        first
        | exact inv_same cwd _ s _ hr hroot rfl rfl rfl (fun src hs => Pc.noConfusion hs)
        | exact True.intro
        | exact inv_refreshReturn cwd _ hroot
    | createCommand name content e =>
      simp only [step]
      unfold createCommand_key
      repeat' split
      all_goals
        first
        | exact inv_same cwd _ s _ hr hroot rfl rfl rfl (fun src hs => Pc.noConfusion hs)
        | exact True.intro
        | exact inv_refreshReturn cwd _ hroot
    | enterDeleteMode =>
      simp only [step]
      unfold enterDeleteMode_key
      repeat' split
      all_goals
        first
        | exact inv_same cwd _ s _ hr hroot rfl rfl rfl (fun src hs => Pc.noConfusion hs)
        | exact inv_refreshReturn cwd _ hroot
    | enterMoveMode =>
      simp only [step]
      unfold enterMoveMode_key
      repeat' split
      · exact inv_same cwd _ s _ hr hroot rfl rfl rfl hno
      · exact inv_same cwd _ s _ hr hroot rfl rfl rfl hno
      · refine inv_same cwd _ s _ hr hroot rfl rfl rfl ?_
        intro src hs
        cases hs
        exact hroot
    | moveNavigate src =>
      have hs := hsrc src rfl
      simp only [step]
      unfold moveNavigate_key
      repeat' split
      · exact inv_refreshReturn cwd _ hs
      · unfold moveNavigate_enter
        repeat' split
        all_goals
          first
          | exact True.intro
          | exact inv_refreshReturn cwd _ hs
      · exact inv_refreshThen cwd _ _ (root_le_parent hroot (by tauto)) hsrc
      · unfold moveNavigate_select
        split
        · exact inv_refreshThen cwd _ _ (hchild _ (by omega) (by omega)) hsrc
        · exact inv_same cwd _ s _ hr hroot rfl rfl rfl hsrc
      · exact inv_same cwd _ s _ hr hroot rfl rfl rfl hsrc

theorem inv_start (cwd : Path) (fs : FS) : Inv cwd (start cwd fs) := by
  unfold start
  simp only
  repeat' split
  all_goals
    first
    | exact True.intro
    | exact inv_refreshThen cwd _ _ (List.prefix_refl _) (fun src hs => Pc.noConfusion hs)

theorem inv_of_reachable (cwd : Path) (c : Config) (h : Reachable cwd c) : Inv cwd c := by
  induction h with
  | start fs => exact inv_start cwd fs
  | step c key _ ih => exact inv_step cwd c key ih

theorem mode_refreshThen {pc pc' : Pc} {s t : State}
    (h : refreshThen pc s = Config.running pc' t) : t.current_mode = s.current_mode := by
  rw [refreshThen_eq] at h
  cases hl : listing s.fs s.current_path with
  | none => rw [hl] at h; cases h
  | some l => rw [hl] at h; cases h; rfl

theorem mode_refreshReturn {pc' : Pc} {s t : State}
    (h : refreshReturn s = Config.running pc' t) : t.current_mode = Mode.NORMAL := by
  rw [refreshReturn_eq] at h
  cases hl : listing s.fs s.current_path with
  | none => rw [hl] at h; cases h
  | some l => rw [hl] at h; cases h; rfl

theorem quit_entered_by_escape_at_root (cwd : Path) (pc pc' : Pc) (t t' : State) (key : Int)
    (h : step cwd (Config.running pc t) key = Config.running pc' t')
    (hq : t'.current_mode = Mode.QUIT) (hn : t.current_mode ≠ Mode.QUIT) :
    pc = Pc.run ∧ key = KEY_ESCAPE ∧ t.current_mode = Mode.NORMAL ∧
      t.current_path = absolute_root cwd ∧ pc' = Pc.run ∧
      t' = { t with current_mode := Mode.QUIT } := by
  have hT : ∀ {p : Pc} {u : State}, refreshThen p u = Config.running pc' t' →
      u.current_mode = t.current_mode → False := by
    intro p u hu hm
    have := mode_refreshThen hu
    rw [hq, hm] at this
    exact hn this.symm
  have hR : ∀ {u : State}, refreshReturn u = Config.running pc' t' → False := by
    intro u hu
    have := mode_refreshReturn hu
    rw [hq] at this
    cases this
  have hS : ∀ {p : Pc} {u : State}, Config.running p u = Config.running pc' t' →
      u.current_mode ≠ Mode.QUIT → False := by
    intro p u hu hm
    cases hu
    exact hm hq
  cases pc with
  | run =>
    simp only [step] at h
    unfold run_key at h
    repeat' split at h
    · unfold run_escape at h
      repeat' split at h
      · exact (hS h (by simp)).elim
      · exact (hT h rfl).elim
      · rename_i h1 h2 h4
        cases h
        refine ⟨rfl, h1, ?_, ?_, rfl, rfl⟩
        · by_contra hc
          exact h2 ⟨hc, hn⟩
        · by_contra hc
          exact h4 hc
    · exact (hS h (by simp)).elim
    · cases h
    · exact (hS h (by simp [createFolder])).elim
    · exact (hS h (by simp [createCommand])).elim
    · exact (hS h (by simp [enterDeleteMode])).elim
    · exact (hS h (by simp [enterMoveMode])).elim
    · unfold run_select at h
      repeat' split at h
      · exact (hR h).elim
      · exact (hT h rfl).elim
      · exact (hS h (by simpa [copyToClipboard] using hn)).elim
      · exact (hS h hn).elim
    · exact (hS h hn).elim
  | runConfirm =>
    simp only [step] at h
    unfold run_confirm at h
    split at h
    · cases h
    · exact (hS h (by simp)).elim
  | createFolder name =>
    simp only [step] at h
    unfold createFolder_key at h
    repeat' split at h
    all_goals
      first
      | exact (hR h).elim
      | exact (hS h hn).elim
      | exact (hS h (fun hc => Mode.noConfusion hc)).elim
      | exact Config.noConfusion h
  | createCommand name content e =>
    simp only [step] at h
    unfold createCommand_key at h
    repeat' split at h
    all_goals
      first
      | exact (hR h).elim
      | exact (hS h hn).elim
      | exact (hS h (fun hc => Mode.noConfusion hc)).elim
  | enterDeleteMode =>
    simp only [step] at h
    unfold enterDeleteMode_key at h
    repeat' split at h
    all_goals
      first
      | exact (hR h).elim
      | exact (hS h hn).elim
      | exact (hS h (fun hc => Mode.noConfusion hc)).elim
  | enterMoveMode =>
    simp only [step] at h
    unfold enterMoveMode_key at h
    repeat' split at h
    all_goals
      first
      | exact (hS h hn).elim
      | exact (hS h (fun hc => Mode.noConfusion hc)).elim
  | moveNavigate src =>
    simp only [step] at h
    unfold moveNavigate_key at h
    repeat' split at h
    · exact (hR h).elim
    · unfold moveNavigate_enter at h
      repeat' split at h
      all_goals
        first
        | exact (hR h).elim
        | exact Config.noConfusion h
    · exact (hT h rfl).elim
    · unfold moveNavigate_select at h
      split at h
      · exact (hT h rfl).elim
      · exact (hS h hn).elim
    · exact (hS h hn).elim

set_option maxRecDepth 100000 in
/-- C1, the code at the failing input: the root holds 27 command files, so only the
first 26 are shown under `a`..`z`.  In Delete mode the key `{` (123, not a letter,
index 26) removes the entry at position 26. -/
theorem C1_key_past_z_acts_on_entry_26 :
    current_items_of (start [] (storageWith 27 (Node.file [120]))) =
        some ((List.range 27).map (fun i => [root_dir, [65 + i]])) ∧
      pc_of (runKeys [] (start [] (storageWith 27 (Node.file [120]))) [68]) =
        some Pc.enterDeleteMode ∧
      fs_of (runKeys [] (start [] (storageWith 27 (Node.file [120]))) [68, 123]) =
        some (storageWith 26 (Node.file [120])) ∧
      current_items_of (runKeys [] (start [] (storageWith 27 (Node.file [120]))) [68, 123]) =
        some ((List.range 26).map (fun i => [root_dir, [65 + i]])) := by
  decide

set_option maxRecDepth 100000 in
/-- C7, the code at the failing input: the root holds 31 folders.  In
MoveSelectDestination at the root, Backspace (127) does not leave the current
directory unchanged: it is read as the selection key of index 30 and descends. -/
theorem C7_backspace_at_root_descends :
    pc_of (runKeys [] (start [] (storageWith 31 Node.dir)) [77, 97]) =
        some (Pc.moveNavigate (absolute_root [])) ∧
      current_path_of (runKeys [] (start [] (storageWith 31 Node.dir)) [77, 97]) =
        some (absolute_root []) ∧
      current_path_of (runKeys [] (start [] (storageWith 31 Node.dir)) [77, 97, KEY_BACKSPACE]) =
        some (absolute_root [] ++ [[95]]) := by
  decide

/-- C2, counterexample: a folder is selected with Move, descended into, and ENTER is
pressed.  The relocation fails and the process terminates. -/
theorem C2_counterexample :
    pc_of (runKeys [] (start [] (storageWith 1 Node.dir)) [77, 97, 97]) =
        some (Pc.moveNavigate (absolute_root [])) ∧
      rename (storageWith 1 Node.dir) [root_dir, [65]] [root_dir, [65], [65]] = none ∧
      runKeys [] (start [] (storageWith 1 Node.dir)) [77, 97, 97, KEY_ENTER] =
        Config.crashed := by
  decide

/-- C5, counterexample: in the empty root the name `x/y` and the content `hi` are
typed in CreateCommand.  No command file is created: storage and the listing are as
before. -/
theorem C5_counterexample :
    fs_of (runKeys [] (start [] (storageWith 0 Node.dir))
        [67, 120, 47, 121, KEY_ENTER, 104, 105, KEY_ENTER]) =
        fs_of (start [] (storageWith 0 Node.dir)) ∧
      current_items_of (runKeys [] (start [] (storageWith 0 Node.dir))
        [67, 120, 47, 121, KEY_ENTER, 104, 105, KEY_ENTER]) = some [] ∧
      pc_of (runKeys [] (start [] (storageWith 0 Node.dir))
        [67, 120, 47, 121, KEY_ENTER, 104, 105, KEY_ENTER]) = some Pc.run := by
  decide

/-- C9, counterexample: ESC in ConfirmQuit does not return to Browse; it waits for a
further keystroke, and `y` then terminates the loop. -/
theorem C9_counterexample :
    current_mode_of (runKeys [] (start [] (storageWith 0 Node.dir)) [KEY_ESCAPE]) =
        some Mode.QUIT ∧
      pc_of (runKeys [] (start [] (storageWith 0 Node.dir)) [KEY_ESCAPE, KEY_ESCAPE]) =
        some Pc.runConfirm ∧
      current_mode_of (runKeys [] (start [] (storageWith 0 Node.dir)) [KEY_ESCAPE, KEY_ESCAPE]) =
        some Mode.QUIT ∧
      has_exited (runKeys [] (start [] (storageWith 0 Node.dir)) [KEY_ESCAPE, KEY_ESCAPE, 121]) =
        true := by
  decide

/-- C10, counterexample: in Move mode the key `0`, which maps to no visible index, is
not ignored: the mode does not keep waiting, the session is back in Browse. -/
theorem C10_counterexample :
    pc_of (runKeys [] (start [] (storageWith 1 Node.dir)) [77]) = some Pc.enterMoveMode ∧
      current_mode_of (runKeys [] (start [] (storageWith 1 Node.dir)) [77]) = some Mode.MOVE ∧
      pc_of (runKeys [] (start [] (storageWith 1 Node.dir)) [77, 48]) = some Pc.run ∧
      current_mode_of (runKeys [] (start [] (storageWith 1 Node.dir)) [77, 48]) =
        some Mode.NORMAL := by
  decide

/-- C9, amended: in ConfirmQuit `Y` terminates the loop and `N` returns to Browse with
directory and storage unchanged; ESC reads one further keystroke, on which `Y` or `y`
terminates and every other key returns to Browse.  ConfirmQuit is entered only by ESC
in Browse at the root. -/
theorem C9_confirm_quit (cwd : Path) (s : State) (hq : s.current_mode = Mode.QUIT) :
    step cwd (Config.running Pc.run s) 89 = Config.exited s ∧
      step cwd (Config.running Pc.run s) 78 =
        Config.running Pc.run { s with current_mode := Mode.NORMAL } ∧
      step cwd (Config.running Pc.run s) KEY_ESCAPE = Config.running Pc.runConfirm s ∧
      (∀ k : Int, step cwd (Config.running Pc.runConfirm s) k =
        if k = 89 ∨ k = 121 then Config.exited s
        else Config.running Pc.run { s with current_mode := Mode.NORMAL }) ∧
      (∀ (pc pc' : Pc) (t t' : State) (key : Int),
        step cwd (Config.running pc t) key = Config.running pc' t' →
        t'.current_mode = Mode.QUIT → t.current_mode ≠ Mode.QUIT →
        pc = Pc.run ∧ key = KEY_ESCAPE ∧ t.current_mode = Mode.NORMAL ∧
          t.current_path = absolute_root cwd) := by
  refine ⟨?_, ?_, ?_, ?_, ?_⟩
  · simp [step, run_key, KEY_ESCAPE, hq]
  · simp [step, run_key, KEY_ESCAPE, hq]
  · simp [step, run_key, run_escape, hq]
  · intro k
    simp [step, run_confirm]
  · intro pc pc' t t' key h h1 h2
    obtain ⟨a, b, c, d, _⟩ := quit_entered_by_escape_at_root cwd pc pc' t t' key h h1 h2
    exact ⟨a, b, c, d⟩

/-- Witness of `C9_confirm_quit`: the root of an empty storage after ESC. -/
theorem C9_confirm_quit_witness :
    step [] (Config.running Pc.run
        { current_path := [root_dir], current_items := [], current_mode := Mode.QUIT,
          item_to_move := [], moving_item_name := [], fs := storageWith 0 Node.dir,
          clipboard := [] }) 89 =
      Config.exited
        { current_path := [root_dir], current_items := [], current_mode := Mode.QUIT,
          item_to_move := [], moving_item_name := [], fs := storageWith 0 Node.dir,
          clipboard := [] } :=
  (C9_confirm_quit []
    { current_path := [root_dir], current_items := [], current_mode := Mode.QUIT,
      item_to_move := [], moving_item_name := [], fs := storageWith 0 Node.dir,
      clipboard := [] } rfl).1

/-- C10, amended: a keystroke other than ESC that maps to no visible index is ignored
in Delete mode, which keeps waiting with nothing changed; in Move mode it changes
neither directory, listing nor storage but ends the mode: the session is back in
Browse. -/
theorem C10_invalid_selection (cwd : Path) (s : State) (key : Int) (hesc : key ≠ KEY_ESCAPE)
    (hbad : ¬ (0 ≤ key - 97 ∧ key - 97 < (s.current_items.length : Int))) :
    step cwd (Config.running Pc.enterDeleteMode s) key =
        Config.running Pc.enterDeleteMode s ∧
      step cwd (Config.running Pc.enterMoveMode s) key =
        Config.running Pc.run { s with current_mode := Mode.NORMAL } := by
  constructor
  · simp only [step, enterDeleteMode_key, if_neg hesc, if_neg hbad]
  · have hb : key - 97 < 0 ∨ key - 97 ≥ (s.current_items.length : Int) := by omega
    simp only [step, enterMoveMode_key, if_neg hesc, if_pos hb]

/-- Witness of `C10_invalid_selection`: the key `0` on an empty listing. -/
theorem C10_invalid_selection_witness :
    step [] (Config.running Pc.enterDeleteMode
        { current_path := [root_dir], current_items := [], current_mode := Mode.DELETE,
          item_to_move := [], moving_item_name := [], fs := storageWith 0 Node.dir,
          clipboard := [] }) 48 =
      Config.running Pc.enterDeleteMode
        { current_path := [root_dir], current_items := [], current_mode := Mode.DELETE,
          item_to_move := [], moving_item_name := [], fs := storageWith 0 Node.dir,
          clipboard := [] } :=
  (C10_invalid_selection []
    { current_path := [root_dir], current_items := [], current_mode := Mode.DELETE,
      item_to_move := [], moving_item_name := [], fs := storageWith 0 Node.dir,
      clipboard := [] } 48 (by decide) (by decide)).1

theorem lookup_remove_all (fs : FS) (item q : Path) :
    lookup (remove_all fs item) q = if item.isPrefixOf q then none else lookup fs q := by
  unfold lookup remove_all
  rw [List.find?_filter]
  by_cases h : item.isPrefixOf q = true
  · rw [if_pos h]
    have : List.find? (fun a : Path × Node =>
        decide ((!item.isPrefixOf a.1) = true ∧ decide (a.1 = q) = true)) fs = none := by
      rw [List.find?_eq_none]
      intro a _
      simp only [decide_eq_true_eq, Bool.not_eq_true', not_and]
      intro h1 h2
      rw [h2, h] at h1
      cases h1
    rw [this]
    rfl
  · rw [if_neg h]
    congr 2
    funext a
    by_cases ha : a.1 = q
    · simp [ha, h]
    · simp [ha]

theorem not_isPrefixOf_of_length {a b : Path} (h : b.length < a.length) :
    a.isPrefixOf b = false := by
  by_contra hc
  rw [Bool.not_eq_false, List.isPrefixOf_iff_prefix] at hc
  have := hc.length_le
  omega

theorem isPrefixOf_child_iff {p a b : Path} {x : Str} (ha : a = p ++ [x])
    (hb : isChildOf p b = true) : a.isPrefixOf b = true ↔ b = a := by
  obtain ⟨y, rfl⟩ := (isChildOf_iff p b).1 hb
  subst ha
  rw [List.isPrefixOf_iff_prefix]
  constructor
  · intro h
    exact (List.IsPrefix.eq_of_length h (by simp)).symm
  · intro h
    rw [h]

theorem children_remove_all (fs : FS) (p item : Path) (x : Str) (hx : item = p ++ [x]) :
    ((remove_all fs item).map Prod.fst).filter (isChildOf p) =
      ((fs.map Prod.fst).filter (isChildOf p)).filter (fun q => decide (q ≠ item)) := by
  unfold remove_all
  rw [List.filter_filter]
  have : List.map Prod.fst (List.filter (fun e : Path × Node => !item.isPrefixOf e.1) fs) =
      List.filter (fun q => !item.isPrefixOf q) (List.map Prod.fst fs) := by
    rw [List.filter_map]
    rfl
  rw [this, List.filter_filter]
  apply List.filter_congr
  intro q _
  by_cases hq : isChildOf p q = true
  · have := isPrefixOf_child_iff hx hq
    by_cases hqi : q = item
    · simp [hq, hqi, this.2 hqi]
    · have hn : item.isPrefixOf q = false := by
        rw [← Bool.not_eq_true]
        exact fun hc => hqi (this.1 hc)
      simp [hq, hqi, hn]
  · simp [hq]

theorem is_directory_remove_all (fs : FS) (item q : Path) (h : item.isPrefixOf q = false) :
    is_directory (remove_all fs item) q = is_directory fs q := by
  unfold is_directory
  rw [lookup_remove_all, h]
  rfl

theorem orderedEntries_remove_all (fs : FS) (p item : Path) (x : Str) (hx : item = p ++ [x])
    (es : List Path) (hes : ∀ q ∈ es, isChildOf p q = true) :
    orderedEntries (remove_all fs item) (es.filter (fun q => decide (q ≠ item))) =
      (orderedEntries fs es).filter (fun q => decide (q ≠ item)) := by
  have key : ∀ q ∈ es, decide (q ≠ item) = true →
      is_directory (remove_all fs item) q = is_directory fs q := by
    intro q hq hne
    apply is_directory_remove_all
    rw [← Bool.not_eq_true]
    intro hc
    exact (of_decide_eq_true hne) ((isPrefixOf_child_iff hx (hes q hq)).1 hc)
  unfold orderedEntries
  rw [List.filter_append, ← sort_filter, ← sort_filter, List.filter_filter, List.filter_filter,
    List.filter_filter, List.filter_filter]
  congr 2
  · apply List.filter_congr
    intro q hq
    by_cases hne : decide (q ≠ item) = true
    · rw [key q hq hne, Bool.and_comm]
    · simp only [Bool.not_eq_true] at hne
      simp [hne]
  · apply List.filter_congr
    intro q hq
    by_cases hne : decide (q ≠ item) = true
    · rw [key q hq hne, Bool.and_comm]
    · simp only [Bool.not_eq_true] at hne
      simp [hne]

theorem filter_ne_getElem : ∀ (l : List Path) (i : Nat) (hi : i < l.length), l.Nodup →
    l.filter (fun q => decide (q ≠ l[i])) = l.eraseIdx i
  | a :: l, 0, _, hnd => by
    simp only [List.getElem_cons_zero, List.eraseIdx_cons_zero]
    rw [List.filter_cons_of_neg (by simp)]
    apply List.filter_eq_self.2
    intro q hq
    have := (List.nodup_cons.1 hnd).1
    simp only [ne_eq, decide_not, Bool.not_eq_true', decide_eq_false_iff_not]
    rintro rfl
    exact this hq
  | a :: l, i + 1, hi, hnd => by
    have hi2 : i < l.length := by simpa using hi
    simp only [List.getElem_cons_succ, List.eraseIdx_cons_succ]
    have hne : a ≠ l[i] := fun h => (List.nodup_cons.1 hnd).1 (h ▸ List.getElem_mem _)
    rw [List.filter_cons_of_pos (by simpa using hne)]
    rw [filter_ne_getElem l i hi2 (List.nodup_cons.1 hnd).2]

theorem listing_nodup {fs : FS} {p : Path} {l : List Path} (h : listing fs p = some l)
    (hnd : (fs.map Prod.fst).Nodup) : l.Nodup := by
  obtain ⟨_, rfl⟩ := listing_some h
  exact (orderedEntries_perm fs _).nodup_iff.2 (hnd.filter _)

theorem listing_remove_all {fs : FS} {p : Path} {l : List Path} (h : listing fs p = some l)
    (hnd : (fs.map Prod.fst).Nodup) (i : Nat) (hi : i < l.length) :
    listing (remove_all fs (l.getD i [])) p = some (l.eraseIdx i) := by
  have hmem : l.getD i [] ∈ l := by
    rw [List.getD_eq_getElem _ _ hi]
    exact List.getElem_mem _
  obtain ⟨⟨x, hx⟩, _⟩ := mem_listing h hmem
  obtain ⟨hdir, hl⟩ := listing_some h
  have hp : (l.getD i []).isPrefixOf p = false :=
    not_isPrefixOf_of_length (by rw [hx]; simp)
  have hdir' : is_directory (remove_all fs (l.getD i [])) p = true := by
    rw [is_directory_remove_all _ _ _ hp]
    exact hdir
  rw [listing_of_isDir hdir', children_remove_all fs p _ x hx,
    orderedEntries_remove_all fs p _ x hx _ (fun q hq => (List.mem_filter.1 hq).2), ← hl]
  congr 1
  have hnd' := listing_nodup h hnd
  rw [List.getD_eq_getElem _ _ hi]
  exact filter_ne_getElem l i hi hnd'

theorem reachable_runKeys (cwd : Path) (fs : FS) (keys : List Int) :
    Reachable cwd (runKeys cwd (start cwd fs) keys) := by
  induction keys using List.reverseRecOn with
  | nil => exact Reachable.start fs
  | append_singleton ks k ih =>
    unfold runKeys at ih ⊢
    rw [List.foldl_append]
    exact Reachable.step _ k ih

theorem reachable_stateOneFolder : Reachable [] (Config.running Pc.run stateOneFolder) := by
  have h : start [] (storageWith 1 Node.dir) = Config.running Pc.run stateOneFolder := by
    decide
  rw [← h]
  exact Reachable.start _

theorem refreshed_stateOneFolder : Refreshed stateOneFolder := by
  unfold Refreshed
  decide

/-- C8: in every configuration reachable from program start, at whatever call site the
next keystroke is read, the current directory exists and the visible entries are its
ordered listing in the current storage: the folders in lexicographic order followed by
the other entries in lexicographic order, the whole a permutation of the children of
the current directory (each child exactly once). -/
theorem C8_refresh_invariant (cwd : Path) (pc : Pc) (s : State)
    (h : Reachable cwd (Config.running pc s)) :
    is_directory s.fs s.current_path = true ∧
      ∃ ds fl : List Path,
        s.current_items = ds ++ fl ∧
        (∀ d ∈ ds, is_directory s.fs d = true) ∧
        (∀ f ∈ fl, is_directory s.fs f = false) ∧
        ds.Sorted (fun a b => a ≤ b) ∧ fl.Sorted (fun a b => a ≤ b) ∧
        (ds ++ fl).Perm ((s.fs.map Prod.fst).filter (isChildOf s.current_path)) := by
  obtain ⟨hr, _, _⟩ := inv_of_reachable cwd _ h
  obtain ⟨hd, hl⟩ := listing_some hr
  refine ⟨hd, _, _, hl, ?_, ?_, sort_sorted _, sort_sorted _, orderedEntries_perm _ _⟩
  · intro d hd'
    have := (sort_perm _).subset hd'
    exact (List.mem_filter.1 this).2
  · intro f hf
    have := (sort_perm _).subset hf
    simpa using (List.mem_filter.1 this).2

/-- Witness of `C8_refresh_invariant`: the start state on a root with one folder. -/
theorem C8_refresh_invariant_witness :
    Reachable [] (Config.running Pc.run stateOneFolder) ∧
      is_directory stateOneFolder.fs stateOneFolder.current_path = true :=
  ⟨reachable_stateOneFolder,
    (C8_refresh_invariant [] Pc.run stateOneFolder reachable_stateOneFolder).1⟩

theorem item_at_natCast (s : State) (i : Nat) :
    item_at s (97 + (i : Int) - 97) = s.current_items.getD i [] := by
  unfold item_at
  congr 1
  omega

/-- C4: from Browse on a refreshed listing `L` of a storage whose paths are pairwise
distinct, `D` followed by the key `'a' + i` of a valid index (any `i` below the length
of `L`, in particular any such `i` below 26) removes exactly `L[i]` and everything
below it: afterwards the visible entries are `L` with its `i`-th element erased, every
path not below `L[i]` names what it named before, the mode is Browse and the current
directory is unchanged.  `D` followed by ESC changes nothing. -/
theorem C4_delete_removes_exactly_one (cwd : Path) (s : State) (i : Nat)
    (hmode : s.current_mode = Mode.NORMAL) (hfresh : Refreshed s)
    (hnodup : (s.fs.map Prod.fst).Nodup) (hi : i < s.current_items.length) :
    runKeys cwd (Config.running Pc.run s) [68, 97 + (i : Int)] =
        Config.running Pc.run
          { s with fs := remove_all s.fs (s.current_items.getD i []),
                   current_items := s.current_items.eraseIdx i } ∧
      (∀ p, lookup (remove_all s.fs (s.current_items.getD i [])) p =
        if (s.current_items.getD i []).isPrefixOf p then none else lookup s.fs p) ∧
      runKeys cwd (Config.running Pc.run s) [68, KEY_ESCAPE] = Config.running Pc.run s := by
  have h1 : step cwd (Config.running Pc.run s) 68 =
      Config.running Pc.enterDeleteMode { s with current_mode := Mode.DELETE } := by
    simp [step, run_key, enterDeleteMode, hmode, KEY_ESCAPE]
  refine ⟨?_, fun p => lookup_remove_all _ _ p, ?_⟩
  · have hk : (97 + (i : Int)) ≠ KEY_ESCAPE := by
      unfold KEY_ESCAPE
      omega
    have hv : 0 ≤ 97 + (i : Int) - 97 ∧
        97 + (i : Int) - 97 < (({ s with current_mode := Mode.DELETE } : State).current_items.length : Int) := by
      constructor
      · omega
      · show 97 + (i : Int) - 97 < (s.current_items.length : Int)
        omega
    have h2 : step cwd (Config.running Pc.enterDeleteMode { s with current_mode := Mode.DELETE })
        (97 + (i : Int)) =
        refreshReturn { s with current_mode := Mode.DELETE,
                               fs := remove_all s.fs (s.current_items.getD i []) } := by
      simp only [step, enterDeleteMode_key, if_neg hk, if_pos hv, item_at_natCast]
    have h3 := listing_remove_all hfresh hnodup i hi
    simp only [runKeys, List.foldl, h1, h2]
    rw [refreshReturn_eq]
    simp only [h3]
    cases s
    simp only at hmode
    subst hmode
    rfl
  · simp only [runKeys, List.foldl, h1]
    simp only [step, enterDeleteMode_key, if_true]
    cases s
    simp only at hmode
    subst hmode
    rfl

/-- Witness of `C4_delete_removes_exactly_one`: `D`, `a` on a root with one folder. -/
theorem C4_delete_removes_exactly_one_witness :
    stateOneFolder.current_mode = Mode.NORMAL ∧ Refreshed stateOneFolder ∧
      (stateOneFolder.fs.map Prod.fst).Nodup ∧ 0 < stateOneFolder.current_items.length ∧
      runKeys [] (Config.running Pc.run stateOneFolder) [68, 97 + ((0 : Nat) : Int)] =
        Config.running Pc.run
          { stateOneFolder with
            fs := remove_all stateOneFolder.fs (stateOneFolder.current_items.getD 0 []),
            current_items := stateOneFolder.current_items.eraseIdx 0 } :=
  ⟨rfl, refreshed_stateOneFolder, by decide, by decide,
    (C4_delete_removes_exactly_one [] stateOneFolder 0 rfl refreshed_stateOneFolder
      (by decide) (by decide)).1⟩

theorem runKeys_append (cwd : Path) (c : Config) (ks ks' : List Int) :
    runKeys cwd c (ks ++ ks') = runKeys cwd (runKeys cwd c ks) ks' := by
  unfold runKeys
  exact List.foldl_append _ _ _ _

theorem runKeys_cons (cwd : Path) (c : Config) (k : Int) (ks : List Int) :
    runKeys cwd c (k :: ks) = runKeys cwd (step cwd c k) ks := rfl

theorem ne_of_append_singleton {r p : Path} (x : Str) (h : r <+: p) : p ++ [x] ≠ r := by
  intro hc
  have := h.length_le
  rw [← hc] at this
  simp at this

theorem parent_path_append (p : Path) (x : Str) : parent_path (p ++ [x]) = p := by
  unfold parent_path
  exact List.dropLast_concat

theorem browse_round_trip (cwd : Path) : ∀ (keys : List Int) (s : State), Refreshed s →
    absolute_root cwd <+: s.current_path → s.current_mode = Mode.NORMAL →
    Descents cwd (Config.running Pc.run s) keys →
    runKeys cwd (Config.running Pc.run s) (keys ++ List.replicate keys.length KEY_ESCAPE) =
      Config.running Pc.run s
  | [], s, _, _, _, _ => rfl
  | k :: ks, s, hr, hroot, hmode, hd => by
    obtain ⟨⟨h97, hlen, hdir, hm⟩, hrest⟩ := hd
    obtain ⟨x, hx⟩ := item_at_child hr (k - 97) (by omega) (by omega)
    have hk : k ≠ KEY_ESCAPE := by
      unfold KEY_ESCAPE
      omega
    have hstep : step cwd (Config.running Pc.run s) k =
        refreshThen Pc.run { s with current_path := item_at s (k - 97) } := by
      have e1 : ¬ (k = 78 ∧ s.current_mode = Mode.QUIT) := by omega
      have e2 : ¬ (k = 89 ∧ s.current_mode = Mode.QUIT) := by omega
      have e3 : ¬ (k = 78 ∧ s.current_mode = Mode.NORMAL) := by omega
      have e4 : ¬ (k = 67 ∧ s.current_mode = Mode.NORMAL) := by omega
      have e5 : ¬ (k = 68 ∧ s.current_mode = Mode.NORMAL) := by omega
      have e6 : ¬ (k = 77 ∧ s.current_mode = Mode.NORMAL) := by omega
      have e7 : ¬ (s.current_mode = Mode.DELETE) := by rw [hmode]; exact fun hc => Mode.noConfusion hc
      simp only [step, run_key, run_select, if_neg hk, if_neg e1, if_neg e2, if_neg e3,
        if_neg e4, if_neg e5, if_neg e6, if_pos (And.intro h97 hlen), if_neg e7, if_pos hmode,
        if_pos hdir]
    rw [refreshThen_eq] at hstep
    obtain ⟨l, hl⟩ := Option.isSome_iff_exists.1
      (show (listing s.fs (item_at s (k - 97))).isSome by rw [listing_of_isDir hdir]; rfl)
    simp only [hl] at hstep
    rw [hstep] at hrest
    have ih := browse_round_trip cwd ks
      { s with current_path := item_at s (k - 97), current_items := l } hl
      (show absolute_root cwd <+: item_at s (k - 97) by
        rw [hx]; exact hroot.trans (List.prefix_append _ _))
      hmode hrest
    rw [List.length_cons, List.replicate_succ', List.cons_append, runKeys_cons, hstep,
      ← List.append_assoc, runKeys_append, ih]
    have hne : item_at s (k - 97) ≠ absolute_root cwd := by
      rw [hx]
      exact ne_of_append_singleton x hroot
    have e0 : ¬ (s.current_mode ≠ Mode.NORMAL ∧ s.current_mode ≠ Mode.QUIT) :=
      fun hc => hc.1 hmode
    have e1 : ¬ (s.current_mode = Mode.QUIT) := by
      rw [hmode]; exact fun hc => Mode.noConfusion hc
    simp only [runKeys, List.foldl, step, run_key, run_escape, if_true, if_neg e0, if_neg e1,
      ne_eq, hne, not_false_eq_true]
    rw [refreshThen_eq]
    simp only [hx, parent_path_append]
    have hr' : listing s.fs s.current_path = some s.current_items := hr
    simp only [hr']

theorem move_round_trip (cwd : Path) (src : Path) : ∀ (keys : List Int) (s : State),
    Refreshed s → absolute_root cwd <+: s.current_path →
    Descents cwd (Config.running (Pc.moveNavigate src) s) keys →
    runKeys cwd (Config.running (Pc.moveNavigate src) s)
        (keys ++ List.replicate keys.length KEY_BACKSPACE) =
      Config.running (Pc.moveNavigate src) s
  | [], s, _, _, _ => rfl
  | k :: ks, s, hr, hroot, hd => by
    obtain ⟨⟨h97, hlen, hdir, hm⟩, hrest⟩ := hd
    obtain ⟨x, hx⟩ := item_at_child hr (k - 97) (by omega) (by omega)
    have hk : k ≠ KEY_ESCAPE := by
      unfold KEY_ESCAPE
      omega
    have hk2 : k ≠ KEY_ENTER := by
      unfold KEY_ENTER
      omega
    have hstep : step cwd (Config.running (Pc.moveNavigate src) s) k =
        refreshThen (Pc.moveNavigate src) { s with current_path := item_at s (k - 97) } := by
      simp only [step, moveNavigate_key, moveNavigate_select, if_neg hk, if_neg hk2,
        if_neg hm, if_pos (And.intro h97 hlen), if_pos hdir]
    rw [refreshThen_eq] at hstep
    obtain ⟨l, hl⟩ := Option.isSome_iff_exists.1
      (show (listing s.fs (item_at s (k - 97))).isSome by rw [listing_of_isDir hdir]; rfl)
    simp only [hl] at hstep
    rw [hstep] at hrest
    have ih := move_round_trip cwd src ks
      { s with current_path := item_at s (k - 97), current_items := l } hl
      (show absolute_root cwd <+: item_at s (k - 97) by
        rw [hx]; exact hroot.trans (List.prefix_append _ _))
      hrest
    rw [List.length_cons, List.replicate_succ', List.cons_append, runKeys_cons, hstep,
      ← List.append_assoc, runKeys_append, ih]
    have hne : item_at s (k - 97) ≠ absolute_root cwd := by
      rw [hx]
      exact ne_of_append_singleton x hroot
    have b1 : KEY_BACKSPACE ≠ KEY_ESCAPE := by decide
    have b2 : KEY_BACKSPACE ≠ KEY_ENTER := by decide
    simp only [runKeys, List.foldl, step, moveNavigate_key, if_neg b1, if_neg b2, true_and,
      ne_eq, hne, not_false_eq_true, if_true]
    rw [refreshThen_eq]
    simp only [hx, parent_path_append]
    have hr' : listing s.fs s.current_path = some s.current_items := hr
    simp only [hr']

/-- C6: from every reachable Browse state, a key sequence that performs successive
descents into folders, followed by as many ESC keys, leads back to the very same
configuration: same current directory, mode still Browse, process still running.
The same holds in the navigation loop of MoveSelectDestination with Backspace keys. -/
theorem C6_path_round_trip (cwd : Path) (s : State) (keys : List Int) :
    (Reachable cwd (Config.running Pc.run s) → s.current_mode = Mode.NORMAL →
      Descents cwd (Config.running Pc.run s) keys →
      runKeys cwd (Config.running Pc.run s) (keys ++ List.replicate keys.length KEY_ESCAPE) =
        Config.running Pc.run s) ∧
    (∀ src : Path, Reachable cwd (Config.running (Pc.moveNavigate src) s) →
      Descents cwd (Config.running (Pc.moveNavigate src) s) keys →
      runKeys cwd (Config.running (Pc.moveNavigate src) s)
          (keys ++ List.replicate keys.length KEY_BACKSPACE) =
        Config.running (Pc.moveNavigate src) s) := by
  constructor
  · intro h hmode hd
    obtain ⟨hr, hroot, _⟩ := inv_of_reachable cwd _ h
    exact browse_round_trip cwd keys s hr hroot hmode hd
  · intro src h hd
    obtain ⟨hr, hroot, _⟩ := inv_of_reachable cwd _ h
    exact move_round_trip cwd src keys s hr hroot hd

/-- Witness of `C6_path_round_trip`: on a root with one folder, `a` then ESC. -/
theorem C6_path_round_trip_witness :
    Reachable [] (Config.running Pc.run stateOneFolder) ∧
      stateOneFolder.current_mode = Mode.NORMAL ∧
      Descents [] (Config.running Pc.run stateOneFolder) [97] ∧
      runKeys [] (Config.running Pc.run stateOneFolder) [97, KEY_ESCAPE] =
        Config.running Pc.run stateOneFolder :=
  have hd : Descents [] (Config.running Pc.run stateOneFolder) [97] :=
    ⟨⟨by decide, by decide, by decide, rfl⟩, trivial⟩
  ⟨reachable_stateOneFolder, rfl, hd,
    (C6_path_round_trip [] stateOneFolder [97]).1 reachable_stateOneFolder rfl hd⟩

theorem createCommand_key_printable (name content : Str) (e : Bool) (s : State) (x : Nat)
    (hx : 32 ≤ x ∧ x ≤ 126) :
    createCommand_key name content e s (x : Int) =
      if e = true then Config.running (Pc.createCommand (name ++ [x]) content e) s
      else Config.running (Pc.createCommand name (content ++ [x]) e) s := by
  have h1 : ¬ ((x : Int) = KEY_ESCAPE) := by unfold KEY_ESCAPE; omega
  have h2 : ¬ ((x : Int) = KEY_ENTER) := by unfold KEY_ENTER; omega
  have h3 : ¬ ((x : Int) = KEY_BACKSPACE) := by unfold KEY_BACKSPACE; omega
  have h4 : isprint (x : Int) = true := by
    unfold isprint
    exact decide_eq_true (by omega)
  simp only [createCommand_key, if_neg h1, if_neg h2, if_neg h3, h4, if_true, Int.toNat_ofNat]

theorem createCommand_type_name (cwd : Path) (s : State) (content : Str) :
    ∀ (xs name : Str), printable xs →
      runKeys cwd (Config.running (Pc.createCommand name content true) s) (toKeys xs) =
        Config.running (Pc.createCommand (name ++ xs) content true) s
  | [], name, _ => by simp [toKeys, runKeys]
  | x :: xs, name, h => by
    have hx := h x (List.mem_cons_self _ _)
    have ih := createCommand_type_name cwd s content xs (name ++ [x])
      (fun y hy => h y (List.mem_cons_of_mem _ hy))
    rw [show toKeys (x :: xs) = (x : Int) :: toKeys xs from rfl, runKeys_cons]
    simp only [step, createCommand_key_printable name content true s x hx, if_true]
    rw [ih, List.append_assoc]
    rfl

theorem createCommand_type_content (cwd : Path) (s : State) (name : Str) :
    ∀ (xs content : Str), printable xs →
      runKeys cwd (Config.running (Pc.createCommand name content false) s) (toKeys xs) =
        Config.running (Pc.createCommand name (content ++ xs) false) s
  | [], content, _ => by simp [toKeys, runKeys]
  | x :: xs, content, h => by
    have hx := h x (List.mem_cons_self _ _)
    have ih := createCommand_type_content cwd s name xs (content ++ [x])
      (fun y hy => h y (List.mem_cons_of_mem _ hy))
    rw [show toKeys (x :: xs) = (x : Int) :: toKeys xs from rfl, runKeys_cons]
    simp only [step, createCommand_key_printable name content false s x hx]
    rw [if_neg (by simp), ih, List.append_assoc]
    rfl

theorem lookup_filter_append (fs : FS) (t q : Path) (n : Node) :
    lookup (fs.filter (fun e => decide (e.1 ≠ t)) ++ [(t, n)]) q =
      if q = t then some n else lookup fs q := by
  unfold lookup
  rw [List.find?_append, List.find?_filter]
  by_cases h : q = t
  · subst h
    rw [if_pos rfl]
    have : List.find? (fun a : Path × Node =>
        decide (decide (a.1 ≠ q) = true ∧ decide (a.1 = q) = true)) fs = none := by
      rw [List.find?_eq_none]
      intro a _
      simp
    rw [this]
    simp
  · rw [if_neg h]
    have hf : (fun a : Path × Node =>
        decide (decide (a.1 ≠ t) = true ∧ decide (a.1 = q) = true)) =
        (fun a : Path × Node => decide (a.1 = q)) := by
      funext a
      by_cases ha : a.1 = q
      · simp [ha, h]
      · simp [ha]
    rw [hf]
    have hs : List.find? (fun e : Path × Node => decide (e.1 = q)) [(t, n)] = none := by
      simp [Ne.symm h]
    rw [hs]
    simp

theorem resolve_single (fs : FS) (p : Path) (c : Str) (hd : is_directory fs p = true)
    (h0 : c ≠ []) (h1 : c ≠ dot) (h2 : c ≠ dotdot) (hlen : c.length ≤ NAME_MAX) :
    resolve fs p [c] = some (p ++ [c]) := by
  have hl : ¬ (c.length > NAME_MAX) := by omega
  simp [resolve, hd, h0, h1, h2, hl]

theorem resolve_name_too_long (fs : FS) (p : Path) (c : Str) (cs : List Str)
    (hlen : c.length > NAME_MAX) : resolve fs p (c :: cs) = none := by
  unfold resolve
  by_cases hd : (!is_directory fs p) = true
  · rw [if_pos hd]
  · rw [if_neg hd, if_pos hlen]

theorem ofstream_open_name_too_long (fs : FS) (p : Path) (n : Str) (hslash : slash ∉ n)
    (hlen : n.length > NAME_MAX) : ofstream_open fs p n = none := by
  have hsplit : n.splitOn slash = [n] := by
    unfold List.splitOn
    apply List.splitOnP_eq_single
    intro x hx
    simpa using fun hc : x = slash => hslash (hc ▸ hx)
  unfold ofstream_open
  by_cases hr : rawLength p n ≥ PATH_MAX
  · rw [if_pos hr]
  · rw [if_neg hr, hsplit, resolve_name_too_long fs _ n [] hlen]

theorem create_directory_name_too_long (fs : FS) (p : Path) (n : Str) (hslash : slash ∉ n)
    (hlen : n.length > NAME_MAX) : create_directory fs p n = none := by
  have hsplit : n.splitOn slash = [n] := by
    unfold List.splitOn
    apply List.splitOnP_eq_single
    intro x hx
    simpa using fun hc : x = slash => hslash (hc ▸ hx)
  have hn : n ≠ [] := by
    intro hc
    rw [hc] at hlen
    simp at hlen
  have hdrop : dropTrailingEmpty [n] = [n] := by
    simp [dropTrailingEmpty, hn]
  unfold create_directory
  by_cases hr : rawLength p n ≥ PATH_MAX
  · rw [if_pos hr]
  · rw [if_neg hr, hsplit, hdrop, resolve_name_too_long fs _ n [] hlen]

theorem pathStringLength_append (p : Path) (c : Str) :
    pathStringLength (p ++ [c]) = pathStringLength p + 1 + c.length := by
  unfold pathStringLength
  rw [List.map_append, List.sum_append]
  simp
  omega

theorem rawLength_plain (p : Path) (n : Str) (hn : slash ∉ n) :
    rawLength p n = pathStringLength (p ++ [n]) := by
  have h : ¬ (n.head? = some slash) := fun hc => hn (List.mem_of_mem_head? hc)
  unfold rawLength
  rw [if_neg h, pathStringLength_append]

theorem ofstream_write_plain (fs : FS) (p : Path) (n c : Str)
    (hn : slash ∉ n) (hd : is_directory fs p = true)
    (hnd : lookup fs (p ++ [n ++ cmd_suffix]) ≠ some Node.dir)
    (hname : (n ++ cmd_suffix).length ≤ NAME_MAX)
    (hpath : pathStringLength (p ++ [n ++ cmd_suffix]) < PATH_MAX) :
    ofstream_write fs p (n ++ cmd_suffix) c =
      fs.filter (fun e => decide (e.1 ≠ p ++ [n ++ cmd_suffix])) ++
        [(p ++ [n ++ cmd_suffix], Node.file c)] := by
  have hsplit : (n ++ cmd_suffix).splitOn slash = [n ++ cmd_suffix] := by
    unfold List.splitOn
    apply List.splitOnP_eq_single
    intro x hx
    rcases List.mem_append.1 hx with h | h
    · simpa using fun hc : x = slash => hn (hc ▸ h)
    · revert h
      unfold cmd_suffix slash
      simp
      omega
  have hstart : startOf p (n ++ cmd_suffix) = p := by
    unfold startOf
    rw [if_neg]
    intro hc
    have hmem : slash ∈ n ++ cmd_suffix := List.mem_of_mem_head? hc
    rcases List.mem_append.1 hmem with h | h
    · exact hn h
    · revert h
      unfold cmd_suffix slash
      decide
  have hlen : 4 ≤ (n ++ cmd_suffix).length := by
    rw [List.length_append]
    unfold cmd_suffix
    simp
  have h0 : n ++ cmd_suffix ≠ [] := by
    intro hc
    rw [hc] at hlen
    simp at hlen
  have h1 : n ++ cmd_suffix ≠ dot := by
    intro hc
    rw [hc] at hlen
    simp [dot] at hlen
  have h2 : n ++ cmd_suffix ≠ dotdot := by
    intro hc
    rw [hc] at hlen
    simp [dotdot] at hlen
  have hns : slash ∉ n ++ cmd_suffix := by
    intro hmem
    rcases List.mem_append.1 hmem with h | h
    · exact hn h
    · revert h
      unfold cmd_suffix slash
      decide
  have hraw : ¬ (rawLength p (n ++ cmd_suffix) ≥ PATH_MAX) := by
    rw [rawLength_plain p _ hns]
    omega
  have hopen : ofstream_open fs p (n ++ cmd_suffix) = some (p ++ [n ++ cmd_suffix]) := by
    unfold ofstream_open
    rw [if_neg hraw, hsplit, hstart, resolve_single fs p _ hd h0 h1 h2 hname]
    simp only
  unfold ofstream_write
  rw [hopen]

theorem browse_select_file (cwd : Path) (s : State) (i : Nat) (t : Path) (c : Str)
    (hmode : s.current_mode = Mode.NORMAL) (hi : s.current_items[i]? = some t)
    (hf : lookup s.fs t = some (Node.file c)) :
    step cwd (Config.running Pc.run s) (97 + (i : Int)) =
      Config.running Pc.run { s with clipboard := c :: s.clipboard } := by
  have hlt : i < s.current_items.length := by
    by_contra hc
    rw [List.getElem?_eq_none (by omega)] at hi
    cases hi
  have hitem : item_at s (97 + (i : Int) - 97) = t := by
    rw [item_at_natCast, List.getD_eq_getElem?_getD, hi]
    rfl
  have hk : ¬ (97 + (i : Int) = KEY_ESCAPE) := by unfold KEY_ESCAPE; omega
  have e1 : ¬ (97 + (i : Int) = 78 ∧ s.current_mode = Mode.QUIT) := by omega
  have e2 : ¬ (97 + (i : Int) = 89 ∧ s.current_mode = Mode.QUIT) := by omega
  have e3 : ¬ (97 + (i : Int) = 78 ∧ s.current_mode = Mode.NORMAL) := by omega
  have e4 : ¬ (97 + (i : Int) = 67 ∧ s.current_mode = Mode.NORMAL) := by omega
  have e5 : ¬ (97 + (i : Int) = 68 ∧ s.current_mode = Mode.NORMAL) := by omega
  have e6 : ¬ (97 + (i : Int) = 77 ∧ s.current_mode = Mode.NORMAL) := by omega
  have e7 : ¬ (s.current_mode = Mode.DELETE) := by
    rw [hmode]; exact fun hc => Mode.noConfusion hc
  have e8 : 97 + (i : Int) ≥ 97 ∧ 97 + (i : Int) < 97 + (s.current_items.length : Int) := by
    omega
  have e9 : ¬ (is_directory s.fs t = true) := by
    unfold is_directory
    rw [hf]
    simp
  have e10 : readFileContents s.fs t = c := by
    unfold readFileContents
    rw [hf]
  simp only [step, run_key, run_select, if_neg hk, if_neg e1, if_neg e2, if_neg e3, if_neg e4,
    if_neg e5, if_neg e6, if_pos e8, if_neg e7, if_pos hmode, hitem, if_neg e9, e10,
    copyToClipboard]

/-- C5, amended: in Browse in an existing directory `P`, for a non-empty printable name
`n` without `/` such that `P` holds no folder named `n.cmd`, the file name `n.cmd` is
no longer than `NAME_MAX` and the path string of `P/n.cmd` fits `PATH_MAX`, and a
non-empty printable content `c`: `C`, `n`, ENTER, `c`, ENTER ends in Browse in `P` with
a refreshed listing that shows the command file `n.cmd`, whose whole content is `c`,
every other path naming what it named before; selecting that entry by its key
(`a`..`z`, when it is among the first 26 entries) then adds exactly `c` to the
clipboard sink and changes nothing else. -/
theorem C5_create_then_copy (cwd : Path) (s : State) (n c : Str)
    (hmode : s.current_mode = Mode.NORMAL) (hdir : is_directory s.fs s.current_path = true)
    (hn : n ≠ []) (hc : c ≠ []) (hpn : printable n) (hpc : printable c)
    (hslash : slash ∉ n)
    (hnodir : lookup s.fs (s.current_path ++ [n ++ cmd_suffix]) ≠ some Node.dir)
    (hname : (n ++ cmd_suffix).length ≤ NAME_MAX)
    (hpath : pathStringLength (s.current_path ++ [n ++ cmd_suffix]) < PATH_MAX) :
    ∃ s1 : State,
      runKeys cwd (Config.running Pc.run s)
          (67 :: (toKeys n ++ KEY_ENTER :: (toKeys c ++ [KEY_ENTER]))) =
        Config.running Pc.run s1 ∧
      s1.current_mode = Mode.NORMAL ∧ s1.current_path = s.current_path ∧ Refreshed s1 ∧
      lookup s1.fs (s.current_path ++ [n ++ cmd_suffix]) = some (Node.file c) ∧
      (∀ q, q ≠ s.current_path ++ [n ++ cmd_suffix] → lookup s1.fs q = lookup s.fs q) ∧
      s.current_path ++ [n ++ cmd_suffix] ∈ s1.current_items ∧
      ∀ i : Nat, i < 26 →
        s1.current_items[i]? = some (s.current_path ++ [n ++ cmd_suffix]) →
        step cwd (Config.running Pc.run s1) (97 + (i : Int)) =
          Config.running Pc.run { s1 with clipboard := c :: s1.clipboard } := by
  have hw := ofstream_write_plain s.fs s.current_path n c hslash hdir hnodir hname hpath
  have hlk : ∀ q, lookup (ofstream_write s.fs s.current_path (n ++ cmd_suffix) c) q =
      if q = s.current_path ++ [n ++ cmd_suffix] then some (Node.file c)
      else lookup s.fs q := by
    intro q
    rw [hw]
    exact lookup_filter_append _ _ _ _
  have hPne : s.current_path ≠ s.current_path ++ [n ++ cmd_suffix] := by
    intro hc'
    have := congrArg List.length hc'
    simp at this
  have hdir' : is_directory (ofstream_write s.fs s.current_path (n ++ cmd_suffix) c)
      s.current_path = true := by
    unfold is_directory at hdir ⊢
    rw [hlk, if_neg hPne]
    exact hdir
  obtain ⟨l, hl⟩ := Option.isSome_iff_exists.1
    (show (listing (ofstream_write s.fs s.current_path (n ++ cmd_suffix) c)
      s.current_path).isSome by rw [listing_of_isDir hdir']; rfl)
  have hrun : runKeys cwd (Config.running Pc.run s)
      (67 :: (toKeys n ++ KEY_ENTER :: (toKeys c ++ [KEY_ENTER]))) =
      Config.running Pc.run
        { s with fs := ofstream_write s.fs s.current_path (n ++ cmd_suffix) c,
                 current_items := l } := by
    have h1 : step cwd (Config.running Pc.run s) 67 =
        Config.running (Pc.createCommand [] [] true)
          { s with current_mode := Mode.CREATE_COMMAND } := by
      simp [step, run_key, createCommand, hmode, KEY_ESCAPE]
    have k1 : ¬ (KEY_ENTER = KEY_ESCAPE) := by decide
    rw [runKeys_cons, h1, runKeys_append, createCommand_type_name _ _ _ _ _ hpn, runKeys_cons,
      List.nil_append]
    have h2 : step cwd (Config.running (Pc.createCommand n [] true)
        { s with current_mode := Mode.CREATE_COMMAND }) KEY_ENTER =
        Config.running (Pc.createCommand n [] false)
          { s with current_mode := Mode.CREATE_COMMAND } := by
      simp only [step, createCommand_key, if_neg k1, if_true, true_and, ne_eq, hn,
        not_false_eq_true]
    rw [h2, runKeys_append, createCommand_type_content _ _ _ _ _ hpc, List.nil_append]
    simp only [runKeys, List.foldl, step, createCommand_key, if_neg k1, if_true, true_and,
      false_and, if_false, ne_eq, hc, not_false_eq_true, Bool.false_eq_true]
    rw [refreshReturn_eq]
    simp only [hl]
    cases s
    simp only at hmode
    subst hmode
    rfl
  refine ⟨_, hrun, hmode, rfl, hl, ?_, ?_, ?_, ?_⟩
  · show lookup (ofstream_write s.fs s.current_path (n ++ cmd_suffix) c) _ = _
    rw [hlk, if_pos rfl]
  · intro q hq
    show lookup (ofstream_write s.fs s.current_path (n ++ cmd_suffix) c) _ = _
    rw [hlk, if_neg hq]
  · obtain ⟨_, rfl⟩ := listing_some hl
    apply (orderedEntries_perm _ _).symm.subset
    rw [List.mem_filter]
    constructor
    · rw [hw, List.map_append]
      exact List.mem_append_right _ (List.mem_cons_self _ _)
    · exact (isChildOf_iff _ _).2 ⟨_, rfl⟩
  · intro i _ hi
    exact browse_select_file cwd _ i _ c hmode hi (by
      show lookup (ofstream_write s.fs s.current_path (n ++ cmd_suffix) c) _ = _
      rw [hlk, if_pos rfl])

/-- Witness of `C5_create_then_copy`: the name `x` and the content `y` typed in a root
holding one folder. -/
theorem C5_create_then_copy_witness :
    stateOneFolder.current_mode = Mode.NORMAL ∧
      is_directory stateOneFolder.fs stateOneFolder.current_path = true ∧
      printable [120] ∧ printable [121] ∧ slash ∉ [120] ∧
      ([120] ++ cmd_suffix).length ≤ NAME_MAX ∧
      pathStringLength (stateOneFolder.current_path ++ [[120] ++ cmd_suffix]) < PATH_MAX ∧
      ∃ s1 : State,
        runKeys [] (Config.running Pc.run stateOneFolder)
            (67 :: (toKeys [120] ++ KEY_ENTER :: (toKeys [121] ++ [KEY_ENTER]))) =
          Config.running Pc.run s1 ∧
        lookup s1.fs (stateOneFolder.current_path ++ [[120] ++ cmd_suffix]) =
          some (Node.file [121]) :=
  have hp1 : printable [120] := by
    intro x hx
    rw [List.mem_singleton] at hx
    omega
  have hp2 : printable [121] := by
    intro x hx
    rw [List.mem_singleton] at hx
    omega
  have hs : slash ∉ [120] := by decide
  ⟨rfl, by decide, hp1, hp2, hs, by decide, by decide,
    match C5_create_then_copy [] stateOneFolder [120] [121] rfl (by decide) (by decide)
      (by decide) hp1 hp2 hs (by decide) (by decide) (by decide) with
    | ⟨s1, h1, _, _, _, h5, _⟩ => ⟨s1, h1, h5⟩⟩

theorem lookup_isSome_iff (fs : FS) (p : Path) :
    (lookup fs p).isSome = true ↔ p ∈ fs.map Prod.fst := by
  unfold lookup
  rw [Option.isSome_map', List.find?_isSome, List.mem_map]
  constructor
  · rintro ⟨e, he, hp⟩
    exact ⟨e, he, of_decide_eq_true hp⟩
  · rintro ⟨e, he, hp⟩
    exact ⟨e, he, decide_eq_true hp⟩

theorem filename_append (p : Path) (x : Str) : filename (p ++ [x]) = x := by
  unfold filename
  exact List.getLastD_concat _ _ _

theorem mem_listing_of_child {fs : FS} {p : Path} {l : List Path} (x : Str)
    (h : listing fs p = some l) (hx : (lookup fs (p ++ [x])).isSome = true) :
    p ++ [x] ∈ l := by
  obtain ⟨_, rfl⟩ := listing_some h
  apply (orderedEntries_perm _ _).symm.subset
  rw [List.mem_filter]
  exact ⟨(lookup_isSome_iff _ _).1 hx, (isChildOf_iff _ _).2 ⟨_, rfl⟩⟩

theorem rename_into_itself (fs : FS) (old cur : Path) (x : Str) (h : old <+: cur) :
    rename fs old (cur ++ [x]) = none := by
  have h1 : ¬ (old = cur ++ [x]) := by
    intro hc
    have := h.length_le
    rw [hc] at this
    simp at this
  have h2 : old.isPrefixOf (cur ++ [x]) = true := by
    rw [List.isPrefixOf_iff_prefix]
    exact h.trans (List.prefix_append _ _)
  unfold rename
  cases lookup fs old with
  | none => rfl
  | some k => simp only [if_neg h1, if_pos h2]

/-- C2, amended: nothing in the program catches a storage failure.  When the
relocation (`fs::rename`) or the folder creation (`fs::create_directory`) fails, the
exception ends the process; moving a folder into itself or into its own descendant is
such a failure.  Only a command-file write that fails (the stream does not open)
is absorbed: the main loop continues in Browse in the same directory, with storage
and listing unchanged and no buffer left. -/
theorem C2_storage_failures (cwd : Path) (s : State) :
    (∀ src : Path, s.current_path ≠ src →
      rename s.fs s.item_to_move (s.current_path ++ [filename s.item_to_move]) = none →
      step cwd (Config.running (Pc.moveNavigate src) s) KEY_ENTER = Config.crashed) ∧
    (∀ src : Path, s.current_path ≠ src → s.item_to_move <+: s.current_path →
      step cwd (Config.running (Pc.moveNavigate src) s) KEY_ENTER = Config.crashed) ∧
    (∀ name : Str, name ≠ [] → create_directory s.fs s.current_path name = none →
      step cwd (Config.running (Pc.createFolder name) s) KEY_ENTER = Config.crashed) ∧
    (∀ name content : Str, content ≠ [] → Refreshed s →
      ofstream_open s.fs s.current_path (name ++ cmd_suffix) = none →
      step cwd (Config.running (Pc.createCommand name content false) s) KEY_ENTER =
        Config.running Pc.run { s with current_mode := Mode.NORMAL }) := by
  have k1 : ¬ (KEY_ENTER = KEY_ESCAPE) := by decide
  have hmove : ∀ src : Path, s.current_path ≠ src →
      rename s.fs s.item_to_move (s.current_path ++ [filename s.item_to_move]) = none →
      step cwd (Config.running (Pc.moveNavigate src) s) KEY_ENTER = Config.crashed := by
    intro src hne hren
    simp only [step, moveNavigate_key, moveNavigate_enter, if_neg k1, if_true, if_pos hne, hren]
  refine ⟨hmove, ?_, ?_, ?_⟩
  · intro src hne hpre
    exact hmove src hne (rename_into_itself _ _ _ _ hpre)
  · intro name hname hfail
    simp only [step, createFolder_key, if_neg k1, true_and, ne_eq, hname, not_false_eq_true,
      if_true, hfail]
  · intro name content hcontent hr hfail
    have hw : ofstream_write s.fs s.current_path (name ++ cmd_suffix) content = s.fs := by
      unfold ofstream_write
      rw [hfail]
    simp only [step, createCommand_key, if_neg k1, if_true, false_and, if_false, true_and,
      ne_eq, hcontent, not_false_eq_true, Bool.false_eq_true, hw]
    rw [refreshReturn_eq]
    have hr' : listing s.fs s.current_path = some s.current_items := hr
    simp only [hr']

/-- Witness of `C2_storage_failures`: the folder `A` moved into itself. -/
theorem C2_storage_failures_witness :
    stateMoveAIntoItself.current_path ≠ [root_dir] ∧
      stateMoveAIntoItself.item_to_move <+: stateMoveAIntoItself.current_path ∧
      step [] (Config.running (Pc.moveNavigate [root_dir]) stateMoveAIntoItself) KEY_ENTER =
        Config.crashed :=
  ⟨by decide, List.prefix_refl _,
    (C2_storage_failures [] stateMoveAIntoItself).2.1 [root_dir] (by decide)
      (List.prefix_refl _)⟩

theorem createFolder_key_printable (name : Str) (s : State) (x : Nat)
    (hx : 32 ≤ x ∧ x ≤ 126) :
    createFolder_key name s (x : Int) = Config.running (Pc.createFolder (name ++ [x])) s := by
  have h1 : ¬ ((x : Int) = KEY_ESCAPE) := by unfold KEY_ESCAPE; omega
  have h2 : ¬ ((x : Int) = KEY_ENTER ∧ name ≠ []) := by unfold KEY_ENTER; omega
  have h3 : ¬ ((x : Int) = KEY_BACKSPACE ∧ name ≠ []) := by unfold KEY_BACKSPACE; omega
  have h4 : isprint (x : Int) = true := by
    unfold isprint
    exact decide_eq_true (by omega)
  simp only [createFolder_key, if_neg h1, if_neg h2, if_neg h3, h4, if_true, Int.toNat_ofNat]

theorem createFolder_type_name (cwd : Path) (s : State) :
    ∀ (xs name : Str), printable xs →
      runKeys cwd (Config.running (Pc.createFolder name) s) (toKeys xs) =
        Config.running (Pc.createFolder (name ++ xs)) s
  | [], name, _ => by simp [toKeys, runKeys]
  | x :: xs, name, h => by
    have hx := h x (List.mem_cons_self _ _)
    have ih := createFolder_type_name cwd s xs (name ++ [x])
      (fun y hy => h y (List.mem_cons_of_mem _ hy))
    rw [show toKeys (x :: xs) = (x : Int) :: toKeys xs from rfl, runKeys_cons]
    simp only [step, createFolder_key_printable name s x hx]
    rw [ih, List.append_assoc]
    rfl

theorem create_directory_plain (fs : FS) (p : Path) (n : Str) (hn : n ≠ [])
    (hslash : slash ∉ n) (hdot : n ≠ dot) (hdotdot : n ≠ dotdot)
    (hd : is_directory fs p = true) (hname : n.length ≤ NAME_MAX)
    (hpath : pathStringLength (p ++ [n]) < PATH_MAX) :
    create_directory fs p n = mkdir fs (p ++ [n]) := by
  have hraw : ¬ (rawLength p n ≥ PATH_MAX) := by
    rw [rawLength_plain p n hslash]
    omega
  have hsplit : n.splitOn slash = [n] := by
    unfold List.splitOn
    apply List.splitOnP_eq_single
    intro x hx
    simpa using fun hc : x = slash => hslash (hc ▸ hx)
  have hstart : startOf p n = p := by
    unfold startOf
    rw [if_neg]
    intro hc
    exact hslash (List.mem_of_mem_head? hc)
  have hdrop : dropTrailingEmpty [n] = [n] := by
    simp [dropTrailingEmpty, hn]
  unfold create_directory
  rw [if_neg hraw, hsplit, hdrop, hstart, resolve_single fs p n hd hn hdot hdotdot hname]

theorem lookup_append_new (fs : FS) (t q : Path) (n : Node) (ht : lookup fs t = none) :
    lookup (fs ++ [(t, n)]) q = if q = t then some n else lookup fs q := by
  unfold lookup at ht ⊢
  rw [List.find?_append]
  by_cases h : q = t
  · subst h
    rw [if_pos rfl]
    have hnone : List.find? (fun e : Path × Node => decide (e.1 = q)) fs = none := by
      cases hf : List.find? (fun e : Path × Node => decide (e.1 = q)) fs with
      | none => rfl
      | some e => rw [hf] at ht; cases ht
    rw [hnone]
    simp
  · rw [if_neg h]
    have hs : List.find? (fun e : Path × Node => decide (e.1 = q)) [(t, n)] = none := by
      simp [Ne.symm h]
    rw [hs]
    simp

theorem mkdir_spec (fs : FS) (p : Path) (x : Str) (hd : is_directory fs p = true)
    (hnd : (fs.map Prod.fst).Nodup)
    (hnofile : ∀ c, lookup fs (p ++ [x]) ≠ some (Node.file c))
    (hname : x.length ≤ NAME_MAX) (hpath : pathStringLength (p ++ [x]) < PATH_MAX) :
    ∃ fs1, mkdir fs (p ++ [x]) = some fs1 ∧ (fs1.map Prod.fst).Nodup ∧
      ∀ q, lookup fs1 q = if q = p ++ [x] then some Node.dir else lookup fs q := by
  have hfit : ¬ ((filename (p ++ [x])).length > NAME_MAX ∨
      pathStringLength (p ++ [x]) ≥ PATH_MAX) := by
    rw [filename_append]
    omega
  unfold mkdir
  rw [if_neg hfit]
  cases hl : lookup fs (p ++ [x]) with
  | none =>
    rw [parent_path_append]
    simp only [hd, if_true]
    refine ⟨_, rfl, ?_, fun q => lookup_append_new fs _ q _ hl⟩
    rw [List.map_append, List.nodup_append]
    refine ⟨hnd, List.nodup_singleton _, ?_⟩
    intro a ha hb
    rw [List.map_cons, List.map_nil, List.mem_singleton] at hb
    have hb' : a = p ++ [x] := hb
    have : (lookup fs (p ++ [x])).isSome = true := (lookup_isSome_iff _ _).2 (hb' ▸ ha)
    rw [hl] at this
    cases this
  | some k =>
    cases k with
    | file c => exact (hnofile c hl).elim
    | dir =>
      refine ⟨fs, rfl, hnd, ?_⟩
      intro q
      by_cases h : q = p ++ [x]
      · rw [if_pos h, h, hl]
      · rw [if_neg h]

theorem filter_eq_length_one : ∀ (l : List Path) (t : Path), l.Nodup → t ∈ l →
    (l.filter (fun q => decide (q = t))).length = 1
  | [], _, _, h => by cases h
  | a :: l, t, hnd, hmem => by
    obtain ⟨hnot, hnd'⟩ := List.nodup_cons.1 hnd
    by_cases ha : a = t
    · subst ha
      rw [List.filter_cons_of_pos (by simp)]
      have : l.filter (fun q => decide (q = a)) = [] := by
        rw [List.filter_eq_nil_iff]
        intro q hq
        simp only [decide_eq_true_eq]
        rintro rfl
        exact hnot hq
      rw [this]
      rfl
    · rw [List.filter_cons_of_neg (by simpa using ha)]
      rcases List.mem_cons.1 hmem with h | h
      · exact (ha h.symm).elim
      · exact filter_eq_length_one l t hnd' h

set_option maxRecDepth 100000 in
/-- C11, counterexample: in the empty root the folder name `x/y` confirmed with ENTER
ends the process (the parent `x` does not exist), and the name `.` leaves the listing
empty: no entry of that name appears.  In a root holding the command file `A`, the
folder name `A` ends the process as well. -/
theorem C11_counterexample :
    runKeys [] (start [] (storageWith 0 Node.dir)) [78, 120, 47, 121, KEY_ENTER] =
        Config.crashed ∧
      pc_of (runKeys [] (start [] (storageWith 0 Node.dir)) [78, 46, KEY_ENTER]) =
        some Pc.run ∧
      current_items_of (runKeys [] (start [] (storageWith 0 Node.dir)) [78, 46, KEY_ENTER]) =
        some [] ∧
      runKeys [] (start [] (storageWith 1 (Node.file [1]))) [78, 65, KEY_ENTER] =
        Config.crashed := by
  decide

/-- C11, amended: in Browse in an existing directory `P` of a storage whose paths are
pairwise distinct, for a non-empty printable name `X` without `/`, other than `.` and
`..`, no longer than `NAME_MAX`, such that the path string of `P/X` fits `PATH_MAX`
and `P` holds no command file named `X`: `N`, `X`, ENTER ends in Browse in `P` with a
refreshed listing that holds exactly one entry named `X`, which is a folder; every
other path names what it named before.  ENTER on an empty name changes nothing and
stays in CreateFolder. -/
theorem C11_create_folder (cwd : Path) (s : State) (X : Str)
    (hmode : s.current_mode = Mode.NORMAL) (hdir : is_directory s.fs s.current_path = true)
    (hnd : (s.fs.map Prod.fst).Nodup) (hX : X ≠ []) (hp : printable X)
    (hslash : slash ∉ X) (hdot : X ≠ dot) (hdotdot : X ≠ dotdot)
    (hnofile : ∀ c, lookup s.fs (s.current_path ++ [X]) ≠ some (Node.file c))
    (hname : X.length ≤ NAME_MAX)
    (hpath : pathStringLength (s.current_path ++ [X]) < PATH_MAX) :
    (∃ s1 : State,
      runKeys cwd (Config.running Pc.run s) (78 :: (toKeys X ++ [KEY_ENTER])) =
        Config.running Pc.run s1 ∧
      s1.current_mode = Mode.NORMAL ∧ s1.current_path = s.current_path ∧ Refreshed s1 ∧
      (s1.current_items.filter (fun q => decide (filename q = X))).length = 1 ∧
      (∀ q ∈ s1.current_items, filename q = X → is_directory s1.fs q = true) ∧
      (∀ q, q ≠ s.current_path ++ [X] → lookup s1.fs q = lookup s.fs q)) ∧
    (∀ t : State, step cwd (Config.running (Pc.createFolder []) t) KEY_ENTER =
      Config.running (Pc.createFolder []) t) := by
  constructor
  · obtain ⟨fs1, hmk, hnd1, hlk⟩ :=
      mkdir_spec s.fs s.current_path X hdir hnd hnofile hname hpath
    have hcd : create_directory s.fs s.current_path X = some fs1 := by
      rw [create_directory_plain s.fs s.current_path X hX hslash hdot hdotdot hdir hname
        hpath, hmk]
    have hPne : s.current_path ≠ s.current_path ++ [X] := by
      intro hc
      have := congrArg List.length hc
      simp at this
    have hdir1 : is_directory fs1 s.current_path = true := by
      unfold is_directory at hdir ⊢
      rw [hlk, if_neg hPne]
      exact hdir
    have hdirX : is_directory fs1 (s.current_path ++ [X]) = true := by
      unfold is_directory
      rw [hlk, if_pos rfl]
      exact decide_eq_true rfl
    obtain ⟨l, hl⟩ := Option.isSome_iff_exists.1
      (show (listing fs1 s.current_path).isSome by rw [listing_of_isDir hdir1]; rfl)
    have hmem : s.current_path ++ [X] ∈ l :=
      mem_listing_of_child X hl (by rw [hlk, if_pos rfl]; rfl)
    have hname : ∀ q ∈ l, filename q = X ↔ q = s.current_path ++ [X] := by
      intro q hq
      obtain ⟨⟨y, rfl⟩, _⟩ := mem_listing hl hq
      rw [filename_append]
      constructor
      · rintro rfl
        rfl
      · intro h
        exact List.singleton_inj.1 (List.append_cancel_left h)
    have hrun : runKeys cwd (Config.running Pc.run s) (78 :: (toKeys X ++ [KEY_ENTER])) =
        Config.running Pc.run { s with fs := fs1, current_items := l } := by
      have h1 : step cwd (Config.running Pc.run s) 78 =
          Config.running (Pc.createFolder [])
            { s with current_mode := Mode.CREATE_FOLDER } := by
        simp [step, run_key, createFolder, hmode, KEY_ESCAPE]
      have k1 : ¬ (KEY_ENTER = KEY_ESCAPE) := by decide
      rw [runKeys_cons, h1, runKeys_append, createFolder_type_name _ _ _ _ hp, List.nil_append]
      simp only [runKeys, List.foldl, step, createFolder_key, if_neg k1, true_and, ne_eq, hX,
        not_false_eq_true, if_true, hcd]
      rw [refreshReturn_eq]
      simp only [hl]
      cases s
      simp only at hmode
      subst hmode
      rfl
    refine ⟨_, hrun, hmode, rfl, hl, ?_, ?_, ?_⟩
    · show (l.filter (fun q => decide (filename q = X))).length = 1
      rw [← filter_eq_length_one l _ (listing_nodup hl hnd1) hmem]
      congr 1
      apply List.filter_congr
      intro q hq
      by_cases h : q = s.current_path ++ [X]
      · simp [h, filename_append]
      · have : ¬ filename q = X := fun hc => h ((hname q hq).1 hc)
        simp [h, this]
    · intro q hq hf
      show is_directory fs1 q = true
      rw [(hname q hq).1 hf]
      exact hdirX
    · intro q hq
      show lookup fs1 q = lookup s.fs q
      rw [hlk, if_neg hq]
  · intro t
    have k1 : ¬ (KEY_ENTER = KEY_ESCAPE) := by decide
    have k2 : ¬ (KEY_ENTER = KEY_BACKSPACE ∧ ([] : Str) ≠ []) := fun h => h.2 rfl
    have k3 : ¬ (KEY_ENTER = KEY_ENTER ∧ ([] : Str) ≠ []) := fun h => h.2 rfl
    have k4 : ¬ (isprint KEY_ENTER = true) := by decide
    simp only [step, createFolder_key, if_neg k1, ne_eq, not_true_eq_false, and_false,
      if_false, if_neg k4]

/-- Witness of `C11_create_folder`: the folder `x` created in a root holding one
folder. -/
theorem C11_create_folder_witness :
    stateOneFolder.current_mode = Mode.NORMAL ∧
      is_directory stateOneFolder.fs stateOneFolder.current_path = true ∧
      (stateOneFolder.fs.map Prod.fst).Nodup ∧ printable [120] ∧ slash ∉ [120] ∧
      ([120] : Str) ≠ dot ∧ ([120] : Str) ≠ dotdot ∧
      (∀ c, lookup stateOneFolder.fs (stateOneFolder.current_path ++ [[120]]) ≠
        some (Node.file c)) ∧
      ([120] : Str).length ≤ NAME_MAX ∧
      pathStringLength (stateOneFolder.current_path ++ [[120]]) < PATH_MAX ∧
      ∃ s1 : State,
        runKeys [] (Config.running Pc.run stateOneFolder) (78 :: (toKeys [120] ++ [KEY_ENTER])) =
          Config.running Pc.run s1 ∧
        (s1.current_items.filter (fun q => decide (filename q = [120]))).length = 1 :=
  have hp1 : printable [120] := by
    intro x hx
    rw [List.mem_singleton] at hx
    omega
  have hs : slash ∉ [120] := by decide
  have hnf : ∀ c, lookup stateOneFolder.fs (stateOneFolder.current_path ++ [[120]]) ≠
      some (Node.file c) := by
    have hn : lookup stateOneFolder.fs (stateOneFolder.current_path ++ [[120]]) = none := by
      decide
    intro c
    rw [hn]
    exact fun h => Option.noConfusion h
  ⟨rfl, by decide, by decide, hp1, hs, by decide, by decide, hnf, by decide, by decide,
    match (C11_create_folder [] stateOneFolder [120] rfl (by decide) (by decide) (by decide)
      hp1 hs (by decide) (by decide) hnf (by decide) (by decide)).1 with
    | ⟨s1, h1, _, _, _, h5, _⟩ => ⟨s1, h1, h5⟩⟩

end CmdBox
